import Mathlib

/-!
Verification of the level-synchronous batched extraction-and-checkpoint
pipeline of the TD_Lineage repository.

The definitions below are a shallow embedding of the Python sources:
  * `src/extraction_db.py` — date windows (`generate_30d_batches`), batch
    planning (`load_processed_tables`, `group_tables_by_db`), the per-batch
    worker (`fetch_batch` / `process_batch_for_stmt`) and the driver
    (`process_database_batches`);
  * `src/map_db.py` — the global table→database mapping cache
    (`map_table_to_db`'s load / lookup-need logic);
  * `src/func_v4.py` (identical in `src/func.py`) — the next-level frontier
    computation of `setup_level_directory`.

Dates are modelled as proleptic-Gregorian day ordinals (`Nat`), matching
Python's `datetime.date.toordinal`; `timedelta(days=k)` is `+ k`.
The backend (`pyodbc`) is modelled as an oracle assigning each issued query
an outcome: a row count, a SKIP-class resource error (Teradata -2646 / -3149),
or any other (fatal) error.
-/

namespace TDLineage

/-! ## Calendar: proleptic Gregorian day ordinals (Python `date.toordinal`) -/

/-- Gregorian leap-year rule, as used by Python's `datetime`. -/
def isLeapYear (y : Nat) : Bool :=
  (y % 4 == 0 && y % 100 != 0) || (y % 400 == 0)

/-- Number of days in month `m` (1–12) of year `y`. -/
def daysInMonth (y m : Nat) : Nat :=
  if m = 2 then (if isLeapYear y then 29 else 28)
  else if m = 4 ∨ m = 6 ∨ m = 9 ∨ m = 11 then 30
  else 31

/-- Days in year `y` strictly before month `m`. -/
def daysBeforeMonth (y m : Nat) : Nat :=
  (List.range (m - 1)).foldl (fun acc i => acc + daysInMonth y (i + 1)) 0

/-- Day ordinal of the date `y-m-d` with 0001-01-01 as day 1; this is the
value of Python's `date(y, m, d).toordinal()`, so adding `k` models
`+ timedelta(days=k)`. -/
def toOrdinal (y m d : Nat) : Nat :=
  365 * (y - 1) + (y - 1) / 4 + (y - 1) / 400 - (y - 1) / 100
    + daysBeforeMonth y m + d

/-! ## `extraction_db.py` configuration constants -/

/-- `BATCH_DAYS = 30` in `extraction_db.py`. -/
def BATCH_DAYS : Nat := 30

/-- `BATCH_SIZE = 100` (tables per batch) in `extraction_db.py`. -/
def BATCH_SIZE : Nat := 100

/-- `STATEMENT_TYPES = ['Insert']` in `extraction_db.py`. -/
def STATEMENT_TYPES : List String := ["Insert"]

/-! ## `generate_30d_batches` (extraction_db.py lines 116–121)

```python
def generate_30d_batches(start, end):
    cur = start
    while cur < end:
        batch_end = min(cur + timedelta(days=BATCH_DAYS - 1), end)
        yield cur, batch_end
        cur = batch_end + timedelta(days=1)
```
The while loop is embedded with explicit fuel; each iteration advances
`cur` by at least one day, so fuel `end - cur` is always sufficient. -/

def gen30Aux (fuel : Nat) (cur endD : Nat) : List (Nat × Nat) :=
  match fuel with
  | 0 => []
  | f + 1 =>
    if cur < endD then
      (cur, min (cur + (BATCH_DAYS - 1)) endD)
        :: gen30Aux f (min (cur + (BATCH_DAYS - 1)) endD + 1) endD
    else []

/-- The list of date windows produced by `generate_30d_batches(start, end)`. -/
def generate_30d_batches (start endD : Nat) : List (Nat × Nat) :=
  gen30Aux (endD - start) start endD

/-- Last window's end of a window list. -/
def lastWindowEnd (L : List (Nat × Nat)) : Option Nat :=
  L.getLast?.map Prod.snd

/-! ## Data model (extraction_db.py)

`DoneRecord` mirrors a row of `done.csv` as written by `update_done_csv`
(the `processed_date` column is omitted: it is `date.today()` at write time
and is never read back by the pipeline).  `BatchInfo` mirrors the dicts built
by `group_tables_by_db`. -/

structure DoneRecord where
  target_db : String
  target_table : String
  batch_number : Nat
  batch_size : Nat
deriving DecidableEq

structure BatchInfo where
  batch_number : Nat
  tables : List String
  batch_size : Nat
deriving DecidableEq

/-- A row of the `failed_batches` list of `process_database_batches`. -/
structure FailedBatch where
  db : String
  batch : Nat
  tables : List String
  error : String
  statement : String
deriving DecidableEq

/-- The arguments of one `fetch_batch` backend query. -/
structure Call where
  db : String
  tables : List String
  stmt : String
  window : Nat × Nat
deriving DecidableEq

/-- One `df.to_csv(csv_path, mode="a", header=flag)` append to a
`{stmt}_queries.csv` file: the header flag used and the number of data rows. -/
structure Block where
  header : Bool
  rows : Nat
deriving DecidableEq

/-- Outcome of one backend query, as classified by `fetch_batch`:
a row count on success, `skip` for the Teradata -2646 (spool) and -3149
(max row count) errors, `fatal` (message) for any other `pyodbc.Error`. -/
inductive FetchResult where
  | ok (rows : Nat)
  | skip
  | fatal (msg : String)
deriving DecidableEq

/-- The backend, modelled as a deterministic assignment of an outcome to each
issued query. -/
def Oracle : Type := Call → FetchResult

/-! ## Batch planning (extraction_db.py lines 49–87) -/

/-- `load_processed_tables`: the set of `(target_db, target_table)` pairs of
`done.csv` (modelled as the list of pairs; the code builds a `set`). -/
def load_processed_tables (doneRows : List DoneRecord) : List (String × String) :=
  doneRows.map (fun r => (r.target_db, r.target_table))

/-- The `remaining_tables` list of `group_tables_by_db`: rows of `param.csv`
whose `(target_db, target_table)` pair is not in the processed set. -/
def remainingTables (param processed : List (String × String)) :
    List (String × String) :=
  param.filter (fun p => !(processed.contains p))

/-- Databases in order of first appearance — the key order of the
`defaultdict` built by `group_tables_by_db` (Python dicts preserve
insertion order). -/
def dbsInOrder (pairs : List (String × String)) : List String :=
  pairs.foldl (fun acc p => if acc.contains p.1 then acc else acc ++ [p.1]) []

/-- The table list accumulated for database `db` by the grouping loop. -/
def tablesForDb (pairs : List (String × String)) (db : String) : List String :=
  (pairs.filter (fun p => p.1 == db)).map (fun p => p.2)

/-- The batch-creation loop `for i in range(0, len(tables), BATCH_SIZE)`:
chunk `tables` into consecutive slices of at most `B`, numbering from `num`.
Embedded with fuel (`tables.length` suffices whenever `1 ≤ B`). -/
def mkBatchesAux (B : Nat) : Nat → List String → Nat → List BatchInfo
  | 0, _, _ => []
  | _ + 1, [], _ => []
  | fuel + 1, t :: rest, num =>
    { batch_number := num
      tables := (t :: rest).take B
      batch_size := ((t :: rest).take B).length }
      :: mkBatchesAux B fuel ((t :: rest).drop B) (num + 1)

/-- The batch list built for one database's tables. -/
def mkBatches (B : Nat) (tables : List String) : List BatchInfo :=
  mkBatchesAux B tables.length tables 1

/-- `group_tables_by_db`: filter out processed tables, group the remainder by
database (insertion order), and chunk each group into batches of at most `B`
tables with sequential numbering from 1.  The source uses the module constant
`BATCH_SIZE` for `B` and reads `param.csv` / `done.csv` for the two lists. -/
def group_tables_by_db (param : List (String × String))
    (doneRows : List DoneRecord) (B : Nat) :
    List (String × List BatchInfo) :=
  let remaining := remainingTables param (load_processed_tables doneRows)
  (dbsInOrder remaining).map (fun db => (db, mkBatches B (tablesForDb remaining db)))

/-- The rows appended to `done.csv` by `update_done_csv(db, n, tables, size)`. -/
def update_done_csv (db : String) (batchNumber : Nat) (tables : List String)
    (batchSize : Nat) : List DoneRecord :=
  tables.map (fun t =>
    { target_db := db, target_table := t,
      batch_number := batchNumber, batch_size := batchSize })

/-- All `(db, table)` pairs covered by a plan's batches. -/
def plannedPairs (plan : List (String × List BatchInfo)) :
    List (String × String) :=
  plan.flatMap (fun g => (g.2.flatMap (fun b => b.tables)).map (fun t => (g.1, t)))

/-! ## The per-batch worker (extraction_db.py lines 206–239)

`process_batch_for_stmt` loops over `generate_30d_batches(START_DATE,
END_DATE)`; for each window it calls `fetch_batch`.  A `None` result (SKIP
classification in `fetch_batch`) breaks the loop — and control then falls
through to the success return.  Any other `pyodbc.Error` is re-raised by
`fetch_batch` and caught by the worker's own `except`, which returns
`(False, error_msg)`.  On a row result the DataFrame is appended to
`{stmt}_queries.csv` with `header=written_flags[stmt]`, after which the flag
is set to `False`. -/

/-- Result of running one batch for one statement type: the `(success, error)`
pair returned by `process_batch_for_stmt`, the updated header flag, the file
blocks after the appends, and the accumulated backend-call log. -/
structure BatchRunResult where
  success : Bool
  error : Option String
  flag : Bool
  blocks : List Block
  calls : List Call
deriving DecidableEq

/-- The window loop of `process_batch_for_stmt`. -/
def procWindows (oracle : Oracle) (stmt db : String) (tables : List String) :
    List (Nat × Nat) → Bool → List Block → List Call → BatchRunResult
  | [], flag, blocks, calls =>
    { success := true, error := none, flag := flag, blocks := blocks, calls := calls }
  | w :: ws, flag, blocks, calls =>
    match oracle { db := db, tables := tables, stmt := stmt, window := w } with
    | .fatal m =>
      { success := false, error := some m, flag := flag, blocks := blocks,
        calls := calls ++ [{ db := db, tables := tables, stmt := stmt, window := w }] }
    | .skip =>
      { success := true, error := none, flag := flag, blocks := blocks,
        calls := calls ++ [{ db := db, tables := tables, stmt := stmt, window := w }] }
    | .ok n =>
      procWindows oracle stmt db tables ws false
        (blocks ++ [{ header := flag, rows := n }])
        (calls ++ [{ db := db, tables := tables, stmt := stmt, window := w }])

/-- `process_batch_for_stmt(stmt, db, batch_info, written_flags)` with the
run's date range `[s, e]` (`START_DATE`/`END_DATE` in the source). -/
def process_batch_for_stmt (oracle : Oracle) (stmt db : String) (b : BatchInfo)
    (s e : Nat) (flag : Bool) (blocks : List Block) (calls : List Call) :
    BatchRunResult :=
  procWindows oracle stmt db b.tables (generate_30d_batches s e) flag blocks calls

/-- The `(success, error)` outcome of a batch, as a pure scan of the windows:
the loop succeeds unless some window raises a non-SKIP backend error before
any SKIP window. -/
def scanWindows (oracle : Oracle) (stmt db : String) (tables : List String) :
    List (Nat × Nat) → Bool × Option String
  | [] => (true, none)
  | w :: ws =>
    match oracle { db := db, tables := tables, stmt := stmt, window := w } with
    | .fatal m => (false, some m)
    | .skip => (true, none)
    | .ok _ => scanWindows oracle stmt db tables ws

/-- The backend calls a batch's window loop issues (it stops at the first
SKIP or fatal window). -/
def scanCalls (oracle : Oracle) (stmt db : String) (tables : List String) :
    List (Nat × Nat) → List Call
  | [] => []
  | w :: ws =>
    match oracle { db := db, tables := tables, stmt := stmt, window := w } with
    | .fatal _ => [{ db := db, tables := tables, stmt := stmt, window := w }]
    | .skip => [{ db := db, tables := tables, stmt := stmt, window := w }]
    | .ok _ =>
      { db := db, tables := tables, stmt := stmt, window := w }
        :: scanCalls oracle stmt db tables ws

/-- A batch's `(success, error)` outcome over the run's date range. -/
def batchOutcome (oracle : Oracle) (stmt db : String) (b : BatchInfo)
    (s e : Nat) : Bool × Option String :=
  scanWindows oracle stmt db b.tables (generate_30d_batches s e)

/-- The `done.csv` rows a single batch contributes (its `update_done_csv`
rows if it succeeded, nothing otherwise). -/
def batchContribDone (oracle : Oracle) (stmt db : String) (b : BatchInfo)
    (s e : Nat) : List DoneRecord :=
  if (batchOutcome oracle stmt db b s e).1 then
    update_done_csv db b.batch_number b.tables b.batch_size
  else []

/-- The `failed_batches` entries a single batch contributes. -/
def batchContribFailed (oracle : Oracle) (stmt db : String) (b : BatchInfo)
    (s e : Nat) : List FailedBatch :=
  if (batchOutcome oracle stmt db b s e).1 then []
  else
    [{ db := db, batch := b.batch_number, tables := b.tables,
       error := (batchOutcome oracle stmt db b s e).2.getD "",
       statement := stmt }]

/-! ## The driver (extraction_db.py lines 245–318) -/

/-- Mutable state threaded through the batch loop of
`process_database_batches` within one statement type. -/
structure RunAcc where
  done : List DoneRecord
  failed : List FailedBatch
  flag : Bool
  blocks : List Block
  calls : List Call

/-- One iteration of the `for batch_info in batches` loop: a successful batch
appends its `update_done_csv` rows, a failed one is appended to
`failed_batches` and `done.csv` is left untouched. -/
def stepAcc (oracle : Oracle) (stmt db : String) (s e : Nat) (b : BatchInfo)
    (acc : RunAcc) : RunAcc :=
  let r := process_batch_for_stmt oracle stmt db b s e acc.flag acc.blocks acc.calls
  if r.success then
    { done := acc.done ++ update_done_csv db b.batch_number b.tables b.batch_size
      failed := acc.failed
      flag := r.flag, blocks := r.blocks, calls := r.calls }
  else
    { done := acc.done
      failed := acc.failed ++
        [{ db := db, batch := b.batch_number, tables := b.tables,
           error := r.error.getD "", statement := stmt }]
      flag := r.flag, blocks := r.blocks, calls := r.calls }

/-- The `for batch_info in batches` loop. -/
def processBatches (oracle : Oracle) (stmt db : String) (s e : Nat) :
    List BatchInfo → RunAcc → RunAcc
  | [], acc => acc
  | b :: bs, acc =>
    processBatches oracle stmt db s e bs (stepAcc oracle stmt db s e b acc)

/-- The `for db_name, batches in db_batches.items()` loop. -/
def processDbs (oracle : Oracle) (stmt : String) (s e : Nat) :
    List (String × List BatchInfo) → RunAcc → RunAcc
  | [], acc => acc
  | g :: gs, acc =>
    processDbs oracle stmt s e gs (processBatches oracle stmt g.1 s e g.2 acc)

/-- Full state of one invocation of `process_database_batches`: `done.csv`
rows appended, failed batches, per-statement-type output files, call log. -/
structure FullAcc where
  done : List DoneRecord
  failed : List FailedBatch
  files : String → List Block
  calls : List Call

/-- The `for stmt in STATEMENT_TYPES` loop: each statement type gets its own
output file `{stmt}_queries.csv` and its own header flag, set at the top of
the iteration to `not os.path.exists(...)`. -/
def processStmts (oracle : Oracle) (plan : List (String × List BatchInfo))
    (s e : Nat) : List String → FullAcc → FullAcc
  | [], acc => acc
  | stmt :: rest, acc =>
    let file0 := acc.files stmt
    let r := processDbs oracle stmt s e plan
      { done := acc.done, failed := acc.failed, flag := file0.isEmpty,
        blocks := file0, calls := acc.calls }
    processStmts oracle plan s e rest
      { done := r.done, failed := r.failed,
        files := fun s2 => if s2 == stmt then r.blocks else acc.files s2,
        calls := r.calls }

/-- `process_database_batches()`, parametrised by the backend oracle, the plan
returned by `group_tables_by_db`, the statement types, the run's date range
and the output files present on disk when the run starts. -/
def process_database_batches (oracle : Oracle)
    (plan : List (String × List BatchInfo)) (stmts : List String)
    (s e : Nat) (files0 : String → List Block) : FullAcc :=
  processStmts oracle plan s e stmts
    { done := [], failed := [], files := files0, calls := [] }

/-- One pipeline invocation: oracle (backend behaviour of that run), the plan
of the run, and the run's date range (`END_DATE = date.today()` moves between
runs). -/
structure RunSpec where
  oracle : Oracle
  plan : List (String × List BatchInfo)
  startD : Nat
  endD : Nat

/-- The evolution of the on-disk output files over a sequence of pipeline
invocations. -/
def foldRuns : List RunSpec → (String → List Block) → (String → List Block)
  | [], files => files
  | r :: rs, files =>
    foldRuns rs
      (process_database_batches r.oracle r.plan STATEMENT_TYPES r.startD r.endD files).files

/-! ## Global table→database mapping cache (map_db.py)

`map_table_to_db` loads the append-only mapping file (lines 69–84): for each
row `(table_name, database_name)` it sets `mapping[table] = db` only when
`table` is not already a key — so among duplicate file entries the first one
wins, whatever its value.  Tables already present in the mapping are excluded
from the backend-lookup set (lines 85–99). -/

/-- The mapping-file load loop of `map_table_to_db`: fold the file's rows
into an association list `m`, keeping the first value seen for each table
(`if row['table_name'] not in mapping: mapping[...] = ...`).  `m` starts as
the dictionary pre-filled from the input DataFrame. -/
def loadMappings : List (String × String) → List (String × String) →
    List (String × String)
  | [], m => m
  | (t, d) :: rest, m =>
    loadMappings rest (if (List.lookup t m).isSome then m else m ++ [(t, d)])

/-- Dictionary read: the database recorded for `t`, if any. -/
def lookupTable (m : List (String × String)) (t : String) : Option String :=
  List.lookup t m

/-- The `tables_needing_lookup` filter of `map_table_to_db` (lines 85–99):
tables of the input that have no mapping yet. -/
def tablesNeedingLookup (tables : List String) (m : List (String × String)) :
    List String :=
  tables.filter (fun t => (List.lookup t m).isNone)

/-- The reader rule in the spec's words, for comparison with the code's
loader: duplicate entries for the same table are resolved by taking the
first non-"Unknown" value encountered, falling back to "Unknown" only if no
real value exists. -/
def specFirstNonUnknown (entries : List (String × String)) (t : String) :
    Option String :=
  match (entries.filter (fun e => e.1 == t && e.2 != "Unknown")).head? with
  | some e => some e.2
  | none => if entries.any (fun e => e.1 == t) then some "Unknown" else none

/-! ## Next-level frontier (func_v4.py lines 13–66; identical in func.py 11–64)

For `level_num > 1`, `setup_level_directory` reads the previous level's
output CSV, takes the distinct `(target_db, target_table)` pairs
(`drop_duplicates`, keeping first occurrences), and removes every pair that
occurs in **the previous level's** input `param.csv`. -/

/-- `drop_duplicates` keeping the first occurrence of each pair. -/
def dedupFirstAux (seen : List (String × String)) :
    List (String × String) → List (String × String)
  | [] => []
  | p :: r =>
    if seen.contains p then dedupFirstAux seen r
    else p :: dedupFirstAux (seen ++ [p]) r

/-- Distinct pairs of a list, first occurrences first. -/
def dedupFirst (l : List (String × String)) : List (String × String) :=
  dedupFirstAux [] l

/-- The `new_combinations` list `setup_level_directory` writes as the next
level's input `param.csv`: distinct target pairs of the previous level's
output, minus the pairs of the previous level's input. -/
def setup_level_directory_new_input
    (prevOutputTargets prevInput : List (String × String)) :
    List (String × String) :=
  (dedupFirst prevOutputTargets).filter (fun p => !(prevInput.contains p))

/-! ## Lemmas about the per-batch window loop -/

/-- Header discipline of an output file: if nonempty, its first appended
block carries the header and every later block is headerless. -/
def headerShape : List Block → Prop
  | [] => True
  | b :: rest => b.header = true ∧ ∀ x ∈ rest, x.header = false

/-! ## Decomposition of the driver loops

Each batch's contribution to `done.csv`, to the failed-batch list and to the
backend-call log depends only on the oracle's answers for that batch's own
queries; the loops below just concatenate the contributions. -/

/-- Calls issued for one batch over the run's date range. -/
def batchCallLog (oracle : Oracle) (stmt db : String) (b : BatchInfo)
    (s e : Nat) : List Call :=
  scanCalls oracle stmt db b.tables (generate_30d_batches s e)

/-- The contribution of one statement type's pass over the whole plan. -/
def stmtContribDone (oracle : Oracle) (plan : List (String × List BatchInfo))
    (stmt : String) (s e : Nat) : List DoneRecord :=
  plan.flatMap (fun g => g.2.flatMap (fun b => batchContribDone oracle stmt g.1 b s e))

def stmtContribFailed (oracle : Oracle) (plan : List (String × List BatchInfo))
    (stmt : String) (s e : Nat) : List FailedBatch :=
  plan.flatMap (fun g => g.2.flatMap (fun b => batchContribFailed oracle stmt g.1 b s e))

def stmtCallLog (oracle : Oracle) (plan : List (String × List BatchInfo))
    (stmt : String) (s e : Nat) : List Call :=
  plan.flatMap (fun g => g.2.flatMap (fun b => batchCallLog oracle stmt g.1 b s e))

/-! ## Scan lemmas for SKIP- and FATAL-terminated batches -/

/-- The query issued by `fetch_batch(db, table_list, stmt, w.1, w.2)`. -/
def mkCall (db : String) (tables : List String) (stmt : String)
    (w : Nat × Nat) : Call :=
  { db := db, tables := tables, stmt := stmt, window := w }

/-! ### Basic facts about the window generator -/

theorem gen30Aux_nil (fuel cur endD : Nat) (h : ¬ cur < endD) :
    gen30Aux fuel cur endD = [] := by
  cases fuel <;> simp [gen30Aux, h]

/-- With enough fuel the result does not depend on the exact fuel. -/
theorem gen30Aux_fuel_irrel (fuel₁ fuel₂ cur endD : Nat)
    (h₁ : endD - cur ≤ fuel₁) (h₂ : endD - cur ≤ fuel₂) :
    gen30Aux fuel₁ cur endD = gen30Aux fuel₂ cur endD := by
  induction fuel₁ generalizing fuel₂ cur with
  | zero =>
    have : ¬ cur < endD := by omega
    rw [gen30Aux_nil _ _ _ this, gen30Aux_nil _ _ _ this]
  | succ f ih =>
    by_cases hc : cur < endD
    · cases fuel₂ with
      | zero => omega
      | succ f₂ =>
        simp only [gen30Aux, if_pos hc]
        have hb : cur ≤ min (cur + (BATCH_DAYS - 1)) endD := by
          simp [BATCH_DAYS]; omega
        congr 1
        exact ih f₂ _ (by simp [BATCH_DAYS]; omega) (by simp [BATCH_DAYS]; omega)
    · rw [gen30Aux_nil _ _ _ hc, gen30Aux_nil _ _ _ hc]

theorem gen30Aux_cons (f cur endD : Nat) (h : cur < endD) :
    gen30Aux (f + 1) cur endD =
      (cur, min (cur + 29) endD) :: gen30Aux f (min (cur + 29) endD + 1) endD := by
  simp [gen30Aux, h, BATCH_DAYS]

/-- Master specification of the window generator loop: starting at `cur < endD`
with sufficient fuel, the produced windows start at `cur`, are contiguous,
non-overlapping, each span at most 30 days, stay within `endD`, and the last
window ends at `endD` — except that when `endD - cur` is a positive multiple
of 30 the loop stops one day early and the last window ends at `endD - 1`. -/
theorem gen30Aux_spec (endD : Nat) :
    ∀ fuel cur, cur < endD → endD - cur ≤ fuel →
      gen30Aux fuel cur endD ≠ [] ∧
      (gen30Aux fuel cur endD).head? = some (cur, min (cur + 29) endD) ∧
      (∀ w ∈ gen30Aux fuel cur endD,
        cur ≤ w.1 ∧ w.1 ≤ w.2 ∧ w.2 ≤ w.1 + 29 ∧ w.2 ≤ endD) ∧
      List.Chain' (fun a b => b.1 = a.2 + 1) (gen30Aux fuel cur endD) ∧
      List.Pairwise (fun a b => a.2 < b.1) (gen30Aux fuel cur endD) ∧
      lastWindowEnd (gen30Aux fuel cur endD) =
        some (if (endD - cur) % 30 = 0 then endD - 1 else endD) ∧
      (∀ d, cur ≤ d →
        d ≤ (if (endD - cur) % 30 = 0 then endD - 1 else endD) →
        ∃ w ∈ gen30Aux fuel cur endD, w.1 ≤ d ∧ d ≤ w.2) := by
  intro fuel
  induction fuel with
  | zero => intro cur h1 h2; omega
  | succ f ih =>
    intro cur h1 h2
    rw [gen30Aux_cons f cur endD h1]
    by_cases hA : endD ≤ cur + 29
    · -- final (short or exact) window reaching endD
      have hmin : min (cur + 29) endD = endD := by omega
      rw [hmin]
      have hnil : gen30Aux f (endD + 1) endD = [] :=
        gen30Aux_nil _ _ _ (by omega)
      rw [hnil]
      have hmod : ¬ (endD - cur) % 30 = 0 := by omega
      refine ⟨by simp, by simp, ?_, by simp, by simp, ?_, ?_⟩
      · intro w hw
        simp only [List.mem_singleton] at hw
        subst hw
        exact ⟨le_refl _, by omega, by omega, le_refl _⟩
      · simp [lastWindowEnd, hmod]
      · intro d hd1 hd2
        rw [if_neg hmod] at hd2
        exact ⟨(cur, endD), by simp, hd1, hd2⟩
    · -- full 30-day window, loop continues at cur + 30
      have hmin : min (cur + 29) endD = cur + 29 := by omega
      rw [hmin]
      by_cases hB : cur + 30 < endD
      · -- recursive case
        have hf : endD - (cur + 30) ≤ f := by omega
        obtain ⟨hne, hhead, hbnd, hchain, hpw, hlast, hcov⟩ := ih (cur + 30) hB hf
        have hmod : (endD - cur) % 30 = (endD - (cur + 30)) % 30 := by omega
        refine ⟨by simp, by simp, ?_, ?_, ?_, ?_, ?_⟩
        · intro w hw
          rcases List.mem_cons.mp hw with h | h
          · subst h; exact ⟨le_refl _, by omega, by omega, by omega⟩
          · have := hbnd w h
            exact ⟨by omega, this.2.1, this.2.2.1, this.2.2.2⟩
        · rw [List.chain'_cons']
          refine ⟨?_, hchain⟩
          intro b hb
          rw [hhead] at hb
          simp only [Option.mem_def, Option.some.injEq] at hb
          subst hb
          simp
        · rw [List.pairwise_cons]
          refine ⟨?_, hpw⟩
          intro w hw
          have := hbnd w hw
          omega
        · obtain ⟨b, l, hbl⟩ := List.exists_cons_of_ne_nil hne
          rw [hbl]
          rw [hbl] at hlast
          rw [hmod]
          simpa [lastWindowEnd] using hlast
        · intro d hd1 hd2
          by_cases hdc : d ≤ cur + 29
          · exact ⟨(cur, cur + 29), by simp, hd1, hdc⟩
          · rw [hmod] at hd2
            obtain ⟨w, hw, hw1, hw2⟩ := hcov d (by omega) hd2
            exact ⟨w, by simp [hw], hw1, hw2⟩
      · -- endD = cur + 30: the day endD is dropped
        have hE : endD = cur + 30 := by omega
        have hnil : gen30Aux f (cur + 29 + 1) endD = [] :=
          gen30Aux_nil _ _ _ (by omega)
        rw [hnil]
        have hmod : (endD - cur) % 30 = 0 := by omega
        refine ⟨by simp, by simp, ?_, by simp, by simp, ?_, ?_⟩
        · intro w hw
          simp only [List.mem_singleton] at hw
          subst hw
          exact ⟨le_refl _, by omega, by omega, by omega⟩
        · simp [lastWindowEnd, hmod]
          omega
        · intro d hd1 hd2
          rw [if_pos hmod] at hd2
          exact ⟨(cur, cur + 29), by simp, hd1, by omega⟩

/-! ## Lemmas about the batch planner -/

theorem mkBatchesAux_flatMap (B : Nat) (hB : 1 ≤ B) :
    ∀ fuel ts num, ts.length ≤ fuel →
      (mkBatchesAux B fuel ts num).flatMap (fun b => b.tables) = ts := by
  intro fuel
  induction fuel with
  | zero =>
    intro ts num h
    have : ts = [] := List.eq_nil_of_length_eq_zero (by omega)
    subst this
    simp [mkBatchesAux]
  | succ f ih =>
    intro ts num h
    match ts with
    | [] => simp [mkBatchesAux]
    | t :: rest =>
      simp only [mkBatchesAux, List.flatMap_cons]
      rw [ih ((t :: rest).drop B) (num + 1)
        (by simp only [List.length_drop]; simp at h ⊢; omega)]
      exact List.take_append_drop B (t :: rest)

theorem mkBatchesAux_sizes (B : Nat) (hB : 1 ≤ B) :
    ∀ fuel ts num b, b ∈ mkBatchesAux B fuel ts num →
      1 ≤ b.tables.length ∧ b.tables.length ≤ B ∧
        b.batch_size = b.tables.length := by
  intro fuel
  induction fuel with
  | zero => intro ts num b hb; simp [mkBatchesAux] at hb
  | succ f ih =>
    intro ts num b hb
    match ts with
    | [] => simp [mkBatchesAux] at hb
    | t :: rest =>
      simp only [mkBatchesAux, List.mem_cons] at hb
      rcases hb with h | h
      · subst h
        refine ⟨?_, ?_, rfl⟩
        · simp [List.length_take]; omega
        · simp [List.length_take]
      · exact ih _ _ _ h

theorem mkBatchesAux_numbers (B : Nat) :
    ∀ fuel ts num,
      (mkBatchesAux B fuel ts num).map (fun b => b.batch_number) =
        List.range' num (mkBatchesAux B fuel ts num).length := by
  intro fuel
  induction fuel with
  | zero => intro ts num; simp [mkBatchesAux]
  | succ f ih =>
    intro ts num
    match ts with
    | [] => simp [mkBatchesAux]
    | t :: rest =>
      simp only [mkBatchesAux, List.map_cons, List.length_cons, List.range'_succ]
      rw [ih]

theorem mkBatches_ne_nil (B : Nat) (ts : List String) (h : ts ≠ []) :
    mkBatches B ts ≠ [] := by
  match ts with
  | [] => exact absurd rfl h
  | t :: rest => simp [mkBatches, mkBatchesAux]

/-- Membership in the `dbsInOrder` fold. -/
theorem dbsInOrder_foldl_mem (x : String) :
    ∀ (l : List (String × String)) (acc : List String),
      x ∈ l.foldl
        (fun acc p => if acc.contains p.1 then acc else acc ++ [p.1]) acc ↔
      x ∈ acc ∨ x ∈ l.map (fun p => p.1) := by
  intro l
  induction l with
  | nil => intro acc; simp
  | cons p r ih =>
    intro acc
    simp only [List.foldl_cons, List.map_cons, List.mem_cons]
    rw [ih]
    by_cases h : acc.contains p.1
    · have : p.1 ∈ acc := List.elem_iff.mp h
      simp only [if_pos h]
      constructor
      · rintro (h1 | h1)
        · exact Or.inl h1
        · exact Or.inr (Or.inr h1)
      · rintro (h1 | h1 | h1)
        · exact Or.inl h1
        · subst h1; exact Or.inl this
        · exact Or.inr h1
    · simp only [if_neg h, List.mem_append, List.mem_singleton]
      tauto

theorem dbsInOrder_mem (x : String) (l : List (String × String)) :
    x ∈ dbsInOrder l ↔ x ∈ l.map (fun p => p.1) := by
  rw [dbsInOrder, dbsInOrder_foldl_mem]
  simp

theorem dbsInOrder_foldl_nodup :
    ∀ (l : List (String × String)) (acc : List String), acc.Nodup →
      (l.foldl
        (fun acc p => if acc.contains p.1 then acc else acc ++ [p.1]) acc).Nodup := by
  intro l
  induction l with
  | nil => intro acc h; simpa using h
  | cons p r ih =>
    intro acc h
    simp only [List.foldl_cons]
    by_cases hc : acc.contains p.1
    · rw [if_pos hc]; exact ih acc h
    · rw [if_neg hc]
      refine ih _ ?_
      rw [List.nodup_append]
      refine ⟨h, List.nodup_singleton _, ?_⟩
      intro a ha hb
      simp only [List.mem_singleton] at hb
      subst hb
      exact hc (List.elem_iff.mpr ha)

theorem dbsInOrder_nodup (l : List (String × String)) : (dbsInOrder l).Nodup :=
  dbsInOrder_foldl_nodup l [] List.nodup_nil

/-- Re-pairing the grouped tables for `db` recovers exactly the rows of the
list whose database is `db`. -/
theorem tablesForDb_map (pairs : List (String × String)) (db : String) :
    (tablesForDb pairs db).map (fun t => (db, t)) =
      pairs.filter (fun p => p.1 == db) := by
  induction pairs with
  | nil => simp [tablesForDb]
  | cons p r ih =>
    simp only [tablesForDb, List.filter_cons] at ih ⊢
    by_cases h : p.1 == db
    · have hdb : p.1 = db := eq_of_beq h
      simp only [if_pos h, List.map_cons, ih]
      congr 1
      rw [← hdb]
    · simp only [if_neg h, ih]

theorem count_filter_fst (p : String × String) (rem : List (String × String))
    (d : String) :
    List.count p (rem.filter (fun q => q.1 == d)) =
      if p.1 = d then List.count p rem else 0 := by
  by_cases h : p.1 = d
  · rw [if_pos h]
    exact List.count_filter (by simp [h])
  · rw [if_neg h]
    rw [List.count_eq_zero]
    intro hmem
    have := List.of_mem_filter hmem
    exact h (eq_of_beq this)

theorem count_flatMap_groups (p : String × String)
    (rem : List (String × String)) :
    ∀ (L : List String), L.Nodup →
      List.count p (L.flatMap (fun db => rem.filter (fun q => q.1 == db))) =
        if p.1 ∈ L then List.count p rem else 0 := by
  intro L
  induction L with
  | nil => intro _; simp
  | cons d L' ih =>
    intro hnd
    rw [List.nodup_cons] at hnd
    simp only [List.flatMap_cons, List.count_append, ih hnd.2,
      count_filter_fst, List.mem_cons]
    by_cases h : p.1 = d
    · have hx : p.1 ∉ L' := by rw [h]; exact hnd.1
      subst h
      simp [hx]
    · simp [h]

/-- The `(db, table)` pairs covered by the plan are exactly (as a multiset)
the remaining (pending) rows. -/
theorem plannedPairs_count (param : List (String × String))
    (doneRows : List DoneRecord) (B : Nat) (hB : 1 ≤ B)
    (p : String × String) :
    List.count p (plannedPairs (group_tables_by_db param doneRows B)) =
      List.count p (remainingTables param (load_processed_tables doneRows)) := by
  set rem := remainingTables param (load_processed_tables doneRows) with hrem
  have h1 : plannedPairs (group_tables_by_db param doneRows B) =
      (dbsInOrder rem).flatMap (fun db => rem.filter (fun q => q.1 == db)) := by
    rw [group_tables_by_db, plannedPairs]
    rw [List.flatMap_map]
    apply List.flatMap_congr
    intro db _
    rw [mkBatches,
      mkBatchesAux_flatMap B hB (tablesForDb rem db).length (tablesForDb rem db) 1
        (le_refl _),
      tablesForDb_map]
  rw [h1, count_flatMap_groups p rem (dbsInOrder rem) (dbsInOrder_nodup rem)]
  by_cases h : p.1 ∈ dbsInOrder rem
  · rw [if_pos h]
  · rw [if_neg h]
    rw [dbsInOrder_mem] at h
    rw [eq_comm, List.count_eq_zero]
    intro hmem
    exact h (List.mem_map.mpr ⟨p, hmem, rfl⟩)

/-- Membership form: a pair is planned iff it is pending. -/
theorem plannedPairs_mem (param : List (String × String))
    (doneRows : List DoneRecord) (B : Nat) (hB : 1 ≤ B)
    (p : String × String) :
    p ∈ plannedPairs (group_tables_by_db param doneRows B) ↔
      p ∈ remainingTables param (load_processed_tables doneRows) := by
  rw [← List.count_pos_iff, ← List.count_pos_iff,
    plannedPairs_count param doneRows B hB p]

theorem headerShape_snoc (blocks : List Block) (b : Block)
    (h : headerShape blocks) (hb : b.header = blocks.isEmpty) :
    headerShape (blocks ++ [b]) := by
  match blocks with
  | [] =>
    simp only [List.isEmpty_nil] at hb
    exact ⟨hb, by simp⟩
  | c :: r =>
    simp only [List.isEmpty_cons] at hb
    refine ⟨h.1, ?_⟩
    intro x hx
    rcases List.mem_append.mp hx with h1 | h1
    · exact h.2 x h1
    · simp only [List.mem_singleton] at h1
      subst h1
      exact hb

/-- The window loop returns the outcome computed by `scanWindows`, logs the
calls computed by `scanCalls`, and only appends blocks to the file; when the
header flag is already down, every appended block is headerless. -/
theorem procWindows_spec (oracle : Oracle) (stmt db : String)
    (tables : List String) :
    ∀ (ws : List (Nat × Nat)) (flag : Bool) (blocks : List Block)
      (calls : List Call),
      (procWindows oracle stmt db tables ws flag blocks calls).success =
        (scanWindows oracle stmt db tables ws).1 ∧
      (procWindows oracle stmt db tables ws flag blocks calls).error =
        (scanWindows oracle stmt db tables ws).2 ∧
      (procWindows oracle stmt db tables ws flag blocks calls).calls =
        calls ++ scanCalls oracle stmt db tables ws ∧
      ∃ new, (procWindows oracle stmt db tables ws flag blocks calls).blocks =
          blocks ++ new ∧
        (flag = false → ∀ x ∈ new, x.header = false) := by
  intro ws
  induction ws with
  | nil =>
    intro flag blocks calls
    exact ⟨rfl, rfl, by simp [procWindows, scanCalls], [], by simp [procWindows], by simp⟩
  | cons w ws ih =>
    intro flag blocks calls
    simp only [procWindows, scanWindows, scanCalls]
    cases horacle : oracle { db := db, tables := tables, stmt := stmt, window := w } with
    | fatal m => exact ⟨rfl, rfl, rfl, [], by simp, by simp⟩
    | skip => exact ⟨rfl, rfl, rfl, [], by simp, by simp⟩
    | ok n =>
      obtain ⟨h1, h2, h3, new, h4, h5⟩ := ih false
        (blocks ++ [{ header := flag, rows := n }])
        (calls ++ [{ db := db, tables := tables, stmt := stmt, window := w }])
      refine ⟨h1, h2, by rw [h3, List.append_assoc]; rfl, ?_⟩
      refine ⟨{ header := flag, rows := n } :: new, ?_, ?_⟩
      · rw [h4, List.append_assoc]
        rfl
      · intro hflag x hx
        rcases List.mem_cons.mp hx with h | h
        · subst h; exact hflag
        · exact h5 rfl x h

/-- The window loop preserves the header-file invariant: the flag mirrors
file emptiness and the file keeps the header shape. -/
theorem procWindows_inv (oracle : Oracle) (stmt db : String)
    (tables : List String) :
    ∀ (ws : List (Nat × Nat)) (flag : Bool) (blocks : List Block)
      (calls : List Call),
      flag = blocks.isEmpty → headerShape blocks →
      (procWindows oracle stmt db tables ws flag blocks calls).flag =
          (procWindows oracle stmt db tables ws flag blocks calls).blocks.isEmpty ∧
        headerShape (procWindows oracle stmt db tables ws flag blocks calls).blocks := by
  intro ws
  induction ws with
  | nil =>
    intro flag blocks calls h1 h2
    exact ⟨h1, h2⟩
  | cons w ws ih =>
    intro flag blocks calls h1 h2
    simp only [procWindows]
    cases horacle : oracle { db := db, tables := tables, stmt := stmt, window := w } with
    | fatal m => exact ⟨h1, h2⟩
    | skip => exact ⟨h1, h2⟩
    | ok n =>
      refine ih false (blocks ++ [{ header := flag, rows := n }]) _ ?_ ?_
      · simp
      · exact headerShape_snoc blocks _ h2 h1

/-- The header flag is only ever lowered, never raised, by the window loop. -/
theorem procWindows_flag_mono (oracle : Oracle) (stmt db : String)
    (tables : List String) :
    ∀ (ws : List (Nat × Nat)) (blocks : List Block) (calls : List Call),
      (procWindows oracle stmt db tables ws false blocks calls).flag = false := by
  intro ws
  induction ws with
  | nil => intro blocks calls; rfl
  | cons w ws ih =>
    intro blocks calls
    simp only [procWindows]
    cases oracle { db := db, tables := tables, stmt := stmt, window := w } with
    | fatal m => rfl
    | skip => rfl
    | ok n => exact ih _ _

/-- Field characterisation of one batch-loop iteration. -/
theorem stepAcc_fields (oracle : Oracle) (stmt db : String) (s e : Nat)
    (b : BatchInfo) (acc : RunAcc) :
    (stepAcc oracle stmt db s e b acc).done =
      acc.done ++ batchContribDone oracle stmt db b s e ∧
    (stepAcc oracle stmt db s e b acc).failed =
      acc.failed ++ batchContribFailed oracle stmt db b s e ∧
    (stepAcc oracle stmt db s e b acc).calls =
      acc.calls ++ batchCallLog oracle stmt db b s e ∧
    ∃ new, (stepAcc oracle stmt db s e b acc).blocks = acc.blocks ++ new ∧
      (acc.flag = false → ∀ x ∈ new, x.header = false) := by
  obtain ⟨w1, w2, w3, wnew, w4, w5⟩ :=
    procWindows_spec oracle stmt db b.tables (generate_30d_batches s e)
      acc.flag acc.blocks acc.calls
  rw [show procWindows oracle stmt db b.tables (generate_30d_batches s e)
      acc.flag acc.blocks acc.calls =
    process_batch_for_stmt oracle stmt db b s e acc.flag acc.blocks acc.calls
    from rfl] at w1 w2 w3 w4
  have houtc : (batchOutcome oracle stmt db b s e) =
      scanWindows oracle stmt db b.tables (generate_30d_batches s e) := rfl
  simp only [stepAcc]
  cases hs : (process_batch_for_stmt oracle stmt db b s e acc.flag acc.blocks
      acc.calls).success with
  | true =>
    have hc : (batchOutcome oracle stmt db b s e).1 = true := by
      rw [houtc, ← w1, hs]
    simp only [if_pos rfl]
    exact ⟨by simp [batchContribDone, hc],
      by simp [batchContribFailed, hc],
      by rw [w3]; rfl,
      wnew, w4, w5⟩
  | false =>
    have hc : (batchOutcome oracle stmt db b s e).1 = false := by
      rw [houtc, ← w1, hs]
    simp only [Bool.false_eq_true, if_false]
    refine ⟨by simp [batchContribDone, hc], ?_,
      by rw [w3]; rfl, wnew, w4, w5⟩
    simp only [batchContribFailed, hc, Bool.false_eq_true, if_false]
    rw [w2, houtc]

/-- One batch-loop iteration never raises a lowered header flag. -/
theorem stepAcc_flag_mono (oracle : Oracle) (stmt db : String) (s e : Nat)
    (b : BatchInfo) (acc : RunAcc) (h : acc.flag = false) :
    (stepAcc oracle stmt db s e b acc).flag = false := by
  have hflag : (process_batch_for_stmt oracle stmt db b s e acc.flag acc.blocks
      acc.calls).flag = false := by
    rw [h]
    exact procWindows_flag_mono oracle stmt db b.tables _ _ _
  simp only [stepAcc]
  cases hs : (process_batch_for_stmt oracle stmt db b s e acc.flag acc.blocks
      acc.calls).success
  · simp only [Bool.false_eq_true, if_false]
    exact hflag
  · simp only [if_pos rfl]
    exact hflag

/-- One batch-loop iteration preserves the header-file invariant. -/
theorem stepAcc_inv (oracle : Oracle) (stmt db : String) (s e : Nat)
    (b : BatchInfo) (acc : RunAcc) (h1 : acc.flag = acc.blocks.isEmpty)
    (h2 : headerShape acc.blocks) :
    (stepAcc oracle stmt db s e b acc).flag =
        (stepAcc oracle stmt db s e b acc).blocks.isEmpty ∧
      headerShape (stepAcc oracle stmt db s e b acc).blocks := by
  have hinv := procWindows_inv oracle stmt db b.tables
    (generate_30d_batches s e) acc.flag acc.blocks acc.calls h1 h2
  simp only [stepAcc]
  cases hs : (process_batch_for_stmt oracle stmt db b s e acc.flag acc.blocks
      acc.calls).success
  · simp only [Bool.false_eq_true, if_false]
    exact hinv
  · simp only [if_pos rfl]
    exact hinv

theorem processBatches_flag_mono (oracle : Oracle) (stmt db : String)
    (s e : Nat) :
    ∀ (bs : List BatchInfo) (acc : RunAcc), acc.flag = false →
      (processBatches oracle stmt db s e bs acc).flag = false := by
  intro bs
  induction bs with
  | nil => intro acc h; exact h
  | cons b bs ih =>
    intro acc h
    exact ih _ (stepAcc_flag_mono oracle stmt db s e b acc h)

theorem processBatches_spec (oracle : Oracle) (stmt db : String) (s e : Nat) :
    ∀ (bs : List BatchInfo) (acc : RunAcc),
      (processBatches oracle stmt db s e bs acc).done =
        acc.done ++ bs.flatMap (fun b => batchContribDone oracle stmt db b s e) ∧
      (processBatches oracle stmt db s e bs acc).failed =
        acc.failed ++ bs.flatMap (fun b => batchContribFailed oracle stmt db b s e) ∧
      (processBatches oracle stmt db s e bs acc).calls =
        acc.calls ++ bs.flatMap (fun b => batchCallLog oracle stmt db b s e) ∧
      ∃ new, (processBatches oracle stmt db s e bs acc).blocks =
          acc.blocks ++ new ∧
        (acc.flag = false → ∀ x ∈ new, x.header = false) := by
  intro bs
  induction bs with
  | nil =>
    intro acc
    exact ⟨by simp [processBatches], by simp [processBatches],
      by simp [processBatches], [], by simp [processBatches], by simp⟩
  | cons b bs ih =>
    intro acc
    obtain ⟨s1, s2, s3, snew, s4, s5⟩ := stepAcc_fields oracle stmt db s e b acc
    obtain ⟨d1, d2, d3, new', d4, d5⟩ := ih (stepAcc oracle stmt db s e b acc)
    simp only [processBatches]
    refine ⟨?_, ?_, ?_, ?_⟩
    · rw [d1, s1]; simp
    · rw [d2, s2]; simp
    · rw [d3, s3]; simp
    · refine ⟨snew ++ new', ?_, ?_⟩
      · rw [d4, s4, List.append_assoc]
      · intro hf x hx
        rcases List.mem_append.mp hx with h | h
        · exact s5 hf x h
        · exact d5 (stepAcc_flag_mono oracle stmt db s e b acc hf) x h

theorem processBatches_inv (oracle : Oracle) (stmt db : String) (s e : Nat) :
    ∀ (bs : List BatchInfo) (acc : RunAcc),
      acc.flag = acc.blocks.isEmpty → headerShape acc.blocks →
      (processBatches oracle stmt db s e bs acc).flag =
          (processBatches oracle stmt db s e bs acc).blocks.isEmpty ∧
        headerShape (processBatches oracle stmt db s e bs acc).blocks := by
  intro bs
  induction bs with
  | nil => intro acc h1 h2; exact ⟨h1, h2⟩
  | cons b bs ih =>
    intro acc h1 h2
    have hinv := stepAcc_inv oracle stmt db s e b acc h1 h2
    exact ih _ hinv.1 hinv.2

theorem processDbs_spec (oracle : Oracle) (stmt : String) (s e : Nat) :
    ∀ (gs : List (String × List BatchInfo)) (acc : RunAcc),
      (processDbs oracle stmt s e gs acc).done =
        acc.done ++ gs.flatMap
          (fun g => g.2.flatMap (fun b => batchContribDone oracle stmt g.1 b s e)) ∧
      (processDbs oracle stmt s e gs acc).failed =
        acc.failed ++ gs.flatMap
          (fun g => g.2.flatMap (fun b => batchContribFailed oracle stmt g.1 b s e)) ∧
      (processDbs oracle stmt s e gs acc).calls =
        acc.calls ++ gs.flatMap
          (fun g => g.2.flatMap (fun b => batchCallLog oracle stmt g.1 b s e)) ∧
      ∃ new, (processDbs oracle stmt s e gs acc).blocks = acc.blocks ++ new ∧
        (acc.flag = false → ∀ x ∈ new, x.header = false) := by
  intro gs
  induction gs with
  | nil =>
    intro acc
    exact ⟨by simp [processDbs], by simp [processDbs], by simp [processDbs],
      [], by simp [processDbs], by simp⟩
  | cons g gs ih =>
    intro acc
    obtain ⟨b1, b2, b3, bnew, b4, b5⟩ := processBatches_spec oracle stmt g.1 s e g.2 acc
    obtain ⟨d1, d2, d3, new', d4, d5⟩ := ih (processBatches oracle stmt g.1 s e g.2 acc)
    simp only [processDbs]
    refine ⟨?_, ?_, ?_, ?_⟩
    · rw [d1, b1]; simp
    · rw [d2, b2]; simp
    · rw [d3, b3]; simp
    · refine ⟨bnew ++ new', ?_, ?_⟩
      · rw [d4, b4, List.append_assoc]
      · intro hf x hx
        rcases List.mem_append.mp hx with h | h
        · exact b5 hf x h
        · exact d5 (processBatches_flag_mono oracle stmt g.1 s e g.2 acc hf) x h

theorem processDbs_inv (oracle : Oracle) (stmt : String) (s e : Nat) :
    ∀ (gs : List (String × List BatchInfo)) (acc : RunAcc),
      acc.flag = acc.blocks.isEmpty → headerShape acc.blocks →
      (processDbs oracle stmt s e gs acc).flag =
          (processDbs oracle stmt s e gs acc).blocks.isEmpty ∧
        headerShape (processDbs oracle stmt s e gs acc).blocks := by
  intro gs
  induction gs with
  | nil => intro acc h1 h2; exact ⟨h1, h2⟩
  | cons g gs ih =>
    intro acc h1 h2
    have hinv := processBatches_inv oracle stmt g.1 s e g.2 acc h1 h2
    exact ih _ hinv.1 hinv.2

theorem processDbs_flag_mono (oracle : Oracle) (stmt : String) (s e : Nat) :
    ∀ (gs : List (String × List BatchInfo)) (acc : RunAcc), acc.flag = false →
      (processDbs oracle stmt s e gs acc).flag = false := by
  intro gs
  induction gs with
  | nil => intro acc h; exact h
  | cons g gs ih =>
    intro acc h
    exact ih _ (processBatches_flag_mono oracle stmt g.1 s e g.2 acc h)

theorem processStmts_spec (oracle : Oracle)
    (plan : List (String × List BatchInfo)) (s e : Nat) :
    ∀ (stmts : List String) (acc : FullAcc),
      (processStmts oracle plan s e stmts acc).done =
        acc.done ++ stmts.flatMap (fun stmt => stmtContribDone oracle plan stmt s e) ∧
      (processStmts oracle plan s e stmts acc).failed =
        acc.failed ++ stmts.flatMap (fun stmt => stmtContribFailed oracle plan stmt s e) ∧
      (processStmts oracle plan s e stmts acc).calls =
        acc.calls ++ stmts.flatMap (fun stmt => stmtCallLog oracle plan stmt s e) := by
  intro stmts
  induction stmts with
  | nil =>
    intro acc
    exact ⟨by simp [processStmts], by simp [processStmts], by simp [processStmts]⟩
  | cons stmt rest ih =>
    intro acc
    obtain ⟨p1, p2, p3, _⟩ := processDbs_spec oracle stmt s e plan
      { done := acc.done, failed := acc.failed, flag := (acc.files stmt).isEmpty,
        blocks := acc.files stmt, calls := acc.calls }
    obtain ⟨d1, d2, d3⟩ := ih
      { done := (processDbs oracle stmt s e plan
          { done := acc.done, failed := acc.failed, flag := (acc.files stmt).isEmpty,
            blocks := acc.files stmt, calls := acc.calls }).done
        failed := (processDbs oracle stmt s e plan
          { done := acc.done, failed := acc.failed, flag := (acc.files stmt).isEmpty,
            blocks := acc.files stmt, calls := acc.calls }).failed
        files := fun s2 => if s2 == stmt then (processDbs oracle stmt s e plan
          { done := acc.done, failed := acc.failed, flag := (acc.files stmt).isEmpty,
            blocks := acc.files stmt, calls := acc.calls }).blocks else acc.files s2
        calls := (processDbs oracle stmt s e plan
          { done := acc.done, failed := acc.failed, flag := (acc.files stmt).isEmpty,
            blocks := acc.files stmt, calls := acc.calls }).calls }
    simp only [processStmts]
    refine ⟨?_, ?_, ?_⟩
    · rw [d1, p1]
      simp [stmtContribDone]
    · rw [d2, p2]
      simp [stmtContribFailed]
    · rw [d3, p3]
      simp [stmtCallLog]

/-- Decomposition of a whole `process_database_batches` run: `done.csv` rows,
failed batches and backend calls are the concatenation of the per-batch
contributions, each of which depends only on the oracle's answers to that
batch's own queries. -/
theorem process_database_batches_spec (oracle : Oracle)
    (plan : List (String × List BatchInfo)) (stmts : List String)
    (s e : Nat) (files0 : String → List Block) :
    (process_database_batches oracle plan stmts s e files0).done =
      stmts.flatMap (fun stmt => stmtContribDone oracle plan stmt s e) ∧
    (process_database_batches oracle plan stmts s e files0).failed =
      stmts.flatMap (fun stmt => stmtContribFailed oracle plan stmt s e) ∧
    (process_database_batches oracle plan stmts s e files0).calls =
      stmts.flatMap (fun stmt => stmtCallLog oracle plan stmt s e) := by
  obtain ⟨h1, h2, h3⟩ := processStmts_spec oracle plan s e stmts
    { done := [], failed := [], files := files0, calls := [] }
  exact ⟨by rw [process_database_batches, h1]; rfl,
    by rw [process_database_batches, h2]; rfl,
    by rw [process_database_batches, h3]; rfl⟩

/-- Output-file evolution across the statement-type loop: every file keeps
the header shape, and a file that already existed (is nonempty) only receives
headerless appends. -/
theorem processStmts_files (oracle : Oracle)
    (plan : List (String × List BatchInfo)) (s e : Nat) :
    ∀ (stmts : List String) (acc : FullAcc),
      (∀ f, headerShape (acc.files f)) →
      (∀ f, headerShape ((processStmts oracle plan s e stmts acc).files f)) ∧
      (∀ f, ∃ new, (processStmts oracle plan s e stmts acc).files f =
          acc.files f ++ new ∧
        (acc.files f ≠ [] → ∀ x ∈ new, x.header = false)) := by
  intro stmts
  induction stmts with
  | nil =>
    intro acc h
    refine ⟨h, fun f => ⟨[], by simp [processStmts], by simp⟩⟩
  | cons stmt rest ih =>
    intro acc h
    have hinv := processDbs_inv oracle stmt s e plan
      { done := acc.done, failed := acc.failed, flag := (acc.files stmt).isEmpty,
        blocks := acc.files stmt, calls := acc.calls } rfl (h stmt)
    obtain ⟨_, _, _, bnew, hb4, hb5⟩ := processDbs_spec oracle stmt s e plan
      { done := acc.done, failed := acc.failed, flag := (acc.files stmt).isEmpty,
        blocks := acc.files stmt, calls := acc.calls }
    obtain ⟨ihshape, ihapp⟩ := ih
      { done := (processDbs oracle stmt s e plan
          { done := acc.done, failed := acc.failed, flag := (acc.files stmt).isEmpty,
            blocks := acc.files stmt, calls := acc.calls }).done
        failed := (processDbs oracle stmt s e plan
          { done := acc.done, failed := acc.failed, flag := (acc.files stmt).isEmpty,
            blocks := acc.files stmt, calls := acc.calls }).failed
        files := fun s2 => if s2 == stmt then (processDbs oracle stmt s e plan
          { done := acc.done, failed := acc.failed, flag := (acc.files stmt).isEmpty,
            blocks := acc.files stmt, calls := acc.calls }).blocks else acc.files s2
        calls := (processDbs oracle stmt s e plan
          { done := acc.done, failed := acc.failed, flag := (acc.files stmt).isEmpty,
            blocks := acc.files stmt, calls := acc.calls }).calls }
      (by
        intro f
        simp only
        by_cases hf : f == stmt
        · rw [if_pos hf]
          exact hinv.2
        · rw [if_neg hf]
          exact h f)
    refine ⟨ihshape, ?_⟩
    intro f
    obtain ⟨new', hn1, hn2⟩ := ihapp f
    by_cases hf : f == stmt
    · have hfe : f = stmt := eq_of_beq hf
      subst hfe
      refine ⟨bnew ++ new', ?_, ?_⟩
      · rw [processStmts]
        rw [hn1]
        simp only [if_pos hf, hb4]
        rw [List.append_assoc]
      · intro hne x hx
        have hflag : (acc.files f).isEmpty = false := by
          simp [List.isEmpty_iff, hne]
        rcases List.mem_append.mp hx with hm | hm
        · exact hb5 hflag x hm
        · refine hn2 ?_ x hm
          simp only [if_pos hf, hb4]
          intro hcontra
          rcases List.append_eq_nil.mp hcontra with ⟨hc1, _⟩
          exact hne hc1
    · refine ⟨new', ?_, ?_⟩
      · rw [processStmts, hn1]
        simp only [if_neg hf]
      · intro hne x hx
        refine hn2 ?_ x hx
        simp only [if_neg hf]
        exact hne

/-- File evolution of one whole `process_database_batches` run. -/
theorem process_database_batches_files (oracle : Oracle)
    (plan : List (String × List BatchInfo)) (stmts : List String)
    (s e : Nat) (files0 : String → List Block)
    (h : ∀ f, headerShape (files0 f)) :
    (∀ f, headerShape ((process_database_batches oracle plan stmts s e files0).files f)) ∧
    (∀ f, ∃ new,
        (process_database_batches oracle plan stmts s e files0).files f =
          files0 f ++ new ∧
        (files0 f ≠ [] → ∀ x ∈ new, x.header = false)) :=
  processStmts_files oracle plan s e stmts
    { done := [], failed := [], files := files0, calls := [] } h

/-- Over any sequence of pipeline invocations the header shape of every
output file is preserved. -/
theorem foldRuns_shape :
    ∀ (runs : List RunSpec) (files : String → List Block),
      (∀ f, headerShape (files f)) →
      ∀ f, headerShape (foldRuns runs files f) := by
  intro runs
  induction runs with
  | nil => intro files h f; exact h f
  | cons r rs ih =>
    intro files h f
    exact ih _ ((process_database_batches_files r.oracle r.plan STATEMENT_TYPES
      r.startD r.endD files h).1) f

/-! ## Lemmas about the global mapping cache (map_db.py) -/

/-- Appending mapping rows never changes the value of a key that is already
present. -/
theorem lookup_append_left (l₁ l₂ : List (String × String)) (t : String) :
    List.lookup t (l₁ ++ l₂) = (List.lookup t l₁).or (List.lookup t l₂) := by
  induction l₁ with
  | nil => simp [List.lookup]
  | cons p r ih =>
    simp only [List.cons_append, List.lookup]
    by_cases h : t == p.1
    · simp [h]
    · simp [h, ih]

/-- What the loader's dictionary answers for `t`: the value already present
in the initial dictionary, or else the value of the **first** file entry for
`t` (whatever it is). -/
theorem loadMappings_lookup :
    ∀ (entries : List (String × String)) (m : List (String × String)) (t : String),
      List.lookup t (loadMappings entries m) =
        (List.lookup t m).or
          ((entries.find? (fun e => e.1 == t)).map (fun e => e.2)) := by
  intro entries
  induction entries with
  | nil => intro m t; simp [loadMappings]
  | cons e rest ih =>
    intro m t
    obtain ⟨k, d⟩ := e
    simp only [loadMappings]
    by_cases hk : (List.lookup k m).isSome
    · rw [if_pos hk]
      rw [ih m t]
      by_cases ht : k == t
      · have : k = t := eq_of_beq ht
        subst this
        obtain ⟨v, hv⟩ := Option.isSome_iff_exists.mp hk
        simp [List.find?, hv, beq_self_eq_true]
      · simp only [List.find?]
        rw [show ((k, d).1 == t) = false from by simpa using ht]
    · rw [if_neg hk]
      rw [ih (m ++ [(k, d)]) t]
      by_cases ht : k == t
      · have hkt : k = t := eq_of_beq ht
        subst hkt
        have hnone : List.lookup k m = none := by
          cases hlk : List.lookup k m
          · rfl
          · exact absurd (by rw [hlk]; rfl) hk
        rw [lookup_append_left, hnone]
        simp [List.lookup, List.find?, beq_self_eq_true]
      · have htk : (t == k) = false := by
          cases hbe : t == k
          · rfl
          · exact absurd (BEq.symm hbe) (by simpa using ht)
        rw [lookup_append_left]
        have : List.lookup t [(k, d)] = none := by simp [List.lookup, htk]
        rw [this, Option.or_none]
        simp only [List.find?]
        rw [show ((k, d).1 == t) = false from by simpa using ht]

/-- A table that already has a mapping is never in the lookup set. -/
theorem tablesNeedingLookup_not_mem (tables : List String)
    (m : List (String × String)) (t : String)
    (h : (List.lookup t m).isSome) : t ∉ tablesNeedingLookup tables m := by
  intro hmem
  have := List.of_mem_filter hmem
  rw [Option.isNone_iff_eq_none] at this
  rw [this] at h
  simp at h

/-! ## Lemmas about the frontier computation (func_v4.py) -/

theorem dedupFirstAux_mem (x : String × String) :
    ∀ (l : List (String × String)) (seen : List (String × String)),
      x ∈ dedupFirstAux seen l ↔ x ∈ l ∧ x ∉ seen := by
  intro l
  induction l with
  | nil => intro seen; simp [dedupFirstAux]
  | cons p r ih =>
    intro seen
    simp only [dedupFirstAux]
    by_cases h : seen.contains p
    · have hp : p ∈ seen := List.elem_iff.mp h
      rw [if_pos h, ih]
      simp only [List.mem_cons]
      constructor
      · rintro ⟨h1, h2⟩
        exact ⟨Or.inr h1, h2⟩
      · rintro ⟨h1 | h1, h2⟩
        · subst h1; exact absurd hp h2
        · exact ⟨h1, h2⟩
    · have hp : p ∉ seen := fun hc => h (List.elem_iff.mpr hc)
      rw [if_neg h]
      simp only [List.mem_cons, ih]
      constructor
      · rintro (h1 | ⟨h1, h2⟩)
        · subst h1; exact ⟨Or.inl rfl, hp⟩
        · simp only [List.mem_append, List.mem_singleton] at h2
          push_neg at h2
          exact ⟨Or.inr h1, h2.1⟩
      · rintro ⟨h1 | h1, h2⟩
        · subst h1; exact Or.inl rfl
        · by_cases hxp : x = p
          · exact Or.inl hxp
          · refine Or.inr ⟨h1, ?_⟩
            simp only [List.mem_append, List.mem_singleton]
            push_neg
            exact ⟨h2, hxp⟩

theorem dedupFirstAux_nodup :
    ∀ (l : List (String × String)) (seen : List (String × String)),
      (dedupFirstAux seen l).Nodup := by
  intro l
  induction l with
  | nil => intro seen; simp [dedupFirstAux]
  | cons p r ih =>
    intro seen
    simp only [dedupFirstAux]
    by_cases h : seen.contains p
    · rw [if_pos h]; exact ih seen
    · rw [if_neg h]
      rw [List.nodup_cons]
      refine ⟨?_, ih _⟩
      intro hc
      have := (dedupFirstAux_mem p r (seen ++ [p])).mp hc
      simp at this

theorem dedupFirst_mem (x : String × String) (l : List (String × String)) :
    x ∈ dedupFirst l ↔ x ∈ l := by
  rw [dedupFirst, dedupFirstAux_mem]
  simp

theorem dedupFirst_nodup (l : List (String × String)) : (dedupFirst l).Nodup :=
  dedupFirstAux_nodup l []

/-- A batch whose windows are all successful up to a SKIP-classified window
reports success: the loop `break`s on the `None` result and the worker falls
through to its success return. The calls stop at the SKIP window. -/
theorem scanWindows_skip (oracle : Oracle) (stmt db : String)
    (tables : List String) :
    ∀ (ws₁ : List (Nat × Nat)) (w : Nat × Nat) (ws₂ : List (Nat × Nat)),
      (∀ w' ∈ ws₁, ∃ n, oracle (mkCall db tables stmt w') = .ok n) →
      oracle (mkCall db tables stmt w) = .skip →
      scanWindows oracle stmt db tables (ws₁ ++ w :: ws₂) = (true, none) ∧
      scanCalls oracle stmt db tables (ws₁ ++ w :: ws₂) =
        (ws₁ ++ [w]).map (mkCall db tables stmt) := by
  intro ws₁
  induction ws₁ with
  | nil =>
    intro w ws₂ _ hskip
    simp only [List.nil_append, scanWindows, scanCalls]
    rw [show ({ db := db, tables := tables, stmt := stmt, window := w } : Call) =
      mkCall db tables stmt w from rfl, hskip]
    exact ⟨rfl, rfl⟩
  | cons w' ws₁ ih =>
    intro w ws₂ hok hskip
    obtain ⟨n, hn⟩ := hok w' (by simp)
    have hrest := ih w ws₂ (fun x hx => hok x (by simp [hx])) hskip
    simp only [List.cons_append, scanWindows, scanCalls]
    rw [show ({ db := db, tables := tables, stmt := stmt, window := w' } : Call) =
      mkCall db tables stmt w' from rfl, hn]
    refine ⟨?_, ?_⟩
    · show scanWindows oracle stmt db tables (ws₁ ++ w :: ws₂) = (true, none)
      exact hrest.1
    · show mkCall db tables stmt w'
          :: scanCalls oracle stmt db tables (ws₁ ++ w :: ws₂) = _
      rw [hrest.2]
      rfl

/-- A batch whose windows are all successful up to a fatally-failing window
reports failure with that window's error; the calls stop at the fatal
window, so later windows are never queried. -/
theorem scanWindows_fatal (oracle : Oracle) (stmt db : String)
    (tables : List String) (m : String) :
    ∀ (ws₁ : List (Nat × Nat)) (w : Nat × Nat) (ws₂ : List (Nat × Nat)),
      (∀ w' ∈ ws₁, ∃ n, oracle (mkCall db tables stmt w') = .ok n) →
      oracle (mkCall db tables stmt w) = .fatal m →
      scanWindows oracle stmt db tables (ws₁ ++ w :: ws₂) = (false, some m) ∧
      scanCalls oracle stmt db tables (ws₁ ++ w :: ws₂) =
        (ws₁ ++ [w]).map (mkCall db tables stmt) := by
  intro ws₁
  induction ws₁ with
  | nil =>
    intro w ws₂ _ hfatal
    simp only [List.nil_append, scanWindows, scanCalls]
    rw [show ({ db := db, tables := tables, stmt := stmt, window := w } : Call) =
      mkCall db tables stmt w from rfl, hfatal]
    exact ⟨rfl, rfl⟩
  | cons w' ws₁ ih =>
    intro w ws₂ hok hfatal
    obtain ⟨n, hn⟩ := hok w' (by simp)
    have hrest := ih w ws₂ (fun x hx => hok x (by simp [hx])) hfatal
    simp only [List.cons_append, scanWindows, scanCalls]
    rw [show ({ db := db, tables := tables, stmt := stmt, window := w' } : Call) =
      mkCall db tables stmt w' from rfl, hn]
    refine ⟨?_, ?_⟩
    · show scanWindows oracle stmt db tables (ws₁ ++ w :: ws₂) = (false, some m)
      exact hrest.1
    · show mkCall db tables stmt w'
          :: scanCalls oracle stmt db tables (ws₁ ++ w :: ws₂) = _
      rw [hrest.2]
      rfl

/-- Every call issued by a batch's window loop queries exactly the batch's
table list against the batch's database. -/
theorem scanCalls_shape (oracle : Oracle) (stmt db : String)
    (tables : List String) :
    ∀ (ws : List (Nat × Nat)) (c : Call),
      c ∈ scanCalls oracle stmt db tables ws →
      c.db = db ∧ c.tables = tables ∧ c.stmt = stmt := by
  intro ws
  induction ws with
  | nil => intro c hc; simp [scanCalls] at hc
  | cons w ws ih =>
    intro c hc
    rw [show scanCalls oracle stmt db tables (w :: ws) =
      match oracle { db := db, tables := tables, stmt := stmt, window := w } with
      | .fatal _ => [{ db := db, tables := tables, stmt := stmt, window := w }]
      | .skip => [{ db := db, tables := tables, stmt := stmt, window := w }]
      | .ok _ => { db := db, tables := tables, stmt := stmt, window := w }
          :: scanCalls oracle stmt db tables ws from rfl] at hc
    cases horacle : oracle { db := db, tables := tables, stmt := stmt, window := w } with
    | fatal m =>
      rw [horacle] at hc
      simp only [List.mem_singleton] at hc
      subst hc
      exact ⟨rfl, rfl, rfl⟩
    | skip =>
      rw [horacle] at hc
      simp only [List.mem_singleton] at hc
      subst hc
      exact ⟨rfl, rfl, rfl⟩
    | ok n =>
      rw [horacle] at hc
      simp only at hc
      rcases List.mem_cons.mp hc with h | h
      · subst h; exact ⟨rfl, rfl, rfl⟩
      · exact ih c h

/-! ## Claim C5 (date-window properties) -/

/-- C5 is false as stated: for the range 2024-01-01 .. 2024-01-31 (31 days,
`end - start = 30` a multiple of `BATCH_DAYS`) the generator produces the
single window 2024-01-01 .. 2024-01-30; the last window's end is not `end`
and no window covers `end`, so the windows do not cover `[start, end]`. -/
theorem claim_c5_counterexample :
    toOrdinal 2024 1 1 ≤ toOrdinal 2024 1 31 ∧
    generate_30d_batches (toOrdinal 2024 1 1) (toOrdinal 2024 1 31) =
      [(toOrdinal 2024 1 1, toOrdinal 2024 1 30)] ∧
    lastWindowEnd (generate_30d_batches (toOrdinal 2024 1 1) (toOrdinal 2024 1 31)) ≠
      some (toOrdinal 2024 1 31) ∧
    ∀ w ∈ generate_30d_batches (toOrdinal 2024 1 1) (toOrdinal 2024 1 31),
      ¬ (w.1 ≤ toOrdinal 2024 1 31 ∧ toOrdinal 2024 1 31 ≤ w.2) := by
  decide

/-- C5 (amended): for every pair of dates `start < end`,
`generate_30d_batches(start, end)` yields windows that are non-empty,
non-overlapping, contiguous (each window starts the day after the previous
one ends), in earliest-first order, each spanning at most 30 days and ending
no later than `end`; they cover `[start, end]` exactly with the last window's
end equal to `end` — except when `end - start` is a positive multiple of 30,
in which case the `while cur < end` loop stops one day early: the last
window ends at `end - 1` and the day `end` is not covered (and for
`start ≥ end` no window is produced at all, see C10). -/
theorem claim_c5 (s e : Nat) (h : s < e) :
    generate_30d_batches s e ≠ [] ∧
    (generate_30d_batches s e).head? = some (s, min (s + 29) e) ∧
    (∀ w ∈ generate_30d_batches s e, w.1 ≤ w.2 ∧ w.2 ≤ w.1 + 29 ∧ w.2 ≤ e) ∧
    List.Chain' (fun a b => b.1 = a.2 + 1) (generate_30d_batches s e) ∧
    List.Pairwise (fun a b => a.2 < b.1) (generate_30d_batches s e) ∧
    lastWindowEnd (generate_30d_batches s e) =
      some (if (e - s) % 30 = 0 then e - 1 else e) ∧
    (∀ d, s ≤ d → d ≤ (if (e - s) % 30 = 0 then e - 1 else e) →
      ∃ w ∈ generate_30d_batches s e, w.1 ≤ d ∧ d ≤ w.2) := by
  obtain ⟨h1, h2, h3, h4, h5, h6, h7⟩ := gen30Aux_spec e (e - s) s h (le_refl _)
  exact ⟨h1, h2, fun w hw => ⟨(h3 w hw).2.1, (h3 w hw).2.2.1, (h3 w hw).2.2.2⟩,
    h4, h5, h6, h7⟩

theorem claim_c5_witness :
    toOrdinal 2024 1 1 < toOrdinal 2024 3 2 ∧
    lastWindowEnd (generate_30d_batches (toOrdinal 2024 1 1) (toOrdinal 2024 3 2)) =
      some (if ((toOrdinal 2024 3 2) - (toOrdinal 2024 1 1)) % 30 = 0 then
        (toOrdinal 2024 3 2) - 1 else (toOrdinal 2024 3 2)) :=
  ⟨by decide, (claim_c5 (toOrdinal 2024 1 1) (toOrdinal 2024 3 2)
    (by decide)).2.2.2.2.2.1⟩

/-! ## Claim C6 (the 2024-01-01 .. 2024-03-02 example) -/

/-- C6 is false as stated: its window list was computed with a 28-day
February, but 2024 is a leap year — the second 30-day window starting
2024-01-31 ends 2024-02-29 (not 2024-03-01), and the third window is
2024-03-01 .. 2024-03-02, not a one-day window starting 2024-03-02. -/
theorem claim_c6_counterexample :
    generate_30d_batches (toOrdinal 2024 1 1) (toOrdinal 2024 3 2) ≠
      [(toOrdinal 2024 1 1, toOrdinal 2024 1 30),
       (toOrdinal 2024 1 31, toOrdinal 2024 3 1),
       (toOrdinal 2024 3 2, toOrdinal 2024 3 2)] := by
  decide

/-- C6 (amended): `generate_30d_batches` applied to the range
2024-01-01 .. 2024-03-02 yields exactly the three windows
`[2024-01-01, 2024-01-30]`, `[2024-01-31, 2024-02-29]` (2024 is a leap year)
and `[2024-03-01, 2024-03-02]` (final short two-day window), in that order. -/
theorem claim_c6 :
    generate_30d_batches (toOrdinal 2024 1 1) (toOrdinal 2024 3 2) =
      [(toOrdinal 2024 1 1, toOrdinal 2024 1 30),
       (toOrdinal 2024 1 31, toOrdinal 2024 2 29),
       (toOrdinal 2024 3 1, toOrdinal 2024 3 2)] := by
  decide

/-! ## Claim C10 (degenerate date range) -/

/-- C10: for every pair of dates with `start ≥ end`,
`generate_30d_batches(start, end)` yields no windows at all (the
`while cur < end` guard fails immediately); in particular a single-day range
(`start = end`) produces zero date windows, and the per-batch window loop
then issues zero backend queries for that range. -/
theorem claim_c10 (s e : Nat) (h : e ≤ s) (oracle : Oracle)
    (stmt db : String) (tables : List String) :
    generate_30d_batches s e = [] ∧
    scanCalls oracle stmt db tables (generate_30d_batches s e) = [] := by
  have h0 : e - s = 0 := by omega
  rw [generate_30d_batches, h0]
  exact ⟨rfl, rfl⟩

theorem claim_c10_witness :
    toOrdinal 2024 5 17 ≤ toOrdinal 2024 5 17 ∧
    generate_30d_batches (toOrdinal 2024 5 17) (toOrdinal 2024 5 17) = [] :=
  ⟨le_refl _, (claim_c10 (toOrdinal 2024 5 17) (toOrdinal 2024 5 17)
    (le_refl _) (fun _ => FetchResult.skip) "Insert" "DB1" ["T1"]).1⟩

/-- Nodup bounds the multiplicity of every element by one (stated over the
product `BEq` instance used throughout this file). -/
theorem count_le_one_of_nodup :
    ∀ (l : List (String × String)), l.Nodup → ∀ p, List.count p l ≤ 1 := by
  intro l
  induction l with
  | nil => intro _ p; simp
  | cons a l ih =>
    intro h p
    rw [List.nodup_cons] at h
    rw [List.count_cons]
    by_cases hpa : p = a
    · subst hpa
      have hz : List.count p l = 0 := List.count_eq_zero.mpr h.1
      simp [hz]
    · have hle := ih h.2 p
      have hap : ¬ (a = p) := fun hc => hpa hc.symm
      simp only [beq_iff_eq]
      split
      · next heq => first
          | exact absurd heq hpa
          | exact absurd heq hap
      · omega

/-! ## Claim C4 (the plan partitions the pending set) -/

/-- C4: for every pending set `P` (the `param.csv` pairs minus the done
pairs) and batch size `B > 0`, the batches produced by `group_tables_by_db`
partition `P`: every pending `(db, table)` pair appears in exactly one batch
of its database (count 1 in the planned pairs; a non-pending pair has count
0), every batch holds between 1 and `B` tables (and its recorded
`batch_size` is its table count), within each database the batch numbers are
the consecutive integers `1, 2, …`, every grouped database has at least one
batch, and a database with no pending table yields no batch (it is not a key
of the plan). -/
theorem claim_c4 (param : List (String × String)) (doneRows : List DoneRecord)
    (B : Nat) (hB : 1 ≤ B)
    (hnd : (remainingTables param (load_processed_tables doneRows)).Nodup) :
    (∀ p ∈ remainingTables param (load_processed_tables doneRows),
      List.count p (plannedPairs (group_tables_by_db param doneRows B)) = 1) ∧
    (∀ p, p ∉ remainingTables param (load_processed_tables doneRows) →
      List.count p (plannedPairs (group_tables_by_db param doneRows B)) = 0) ∧
    (∀ g ∈ group_tables_by_db param doneRows B, ∀ b ∈ g.2,
      1 ≤ b.tables.length ∧ b.tables.length ≤ B ∧
        b.batch_size = b.tables.length) ∧
    (∀ g ∈ group_tables_by_db param doneRows B,
      g.2.map (fun b => b.batch_number) = List.range' 1 g.2.length ∧
        g.2 ≠ []) ∧
    (∀ db, db ∈ (group_tables_by_db param doneRows B).map (fun g => g.1) ↔
      ∃ t, (db, t) ∈ remainingTables param (load_processed_tables doneRows)) := by
  set rem := remainingTables param (load_processed_tables doneRows) with hrem
  refine ⟨?_, ?_, ?_, ?_, ?_⟩
  · intro p hp
    rw [plannedPairs_count param doneRows B hB p]
    exact le_antisymm (count_le_one_of_nodup rem hnd p)
      (List.one_le_count_iff.mpr hp)
  · intro p hp
    rw [plannedPairs_count param doneRows B hB p]
    exact List.count_eq_zero.mpr hp
  · intro g hg b hb
    rw [group_tables_by_db] at hg
    obtain ⟨db, _, rfl⟩ := List.mem_map.mp hg
    exact mkBatchesAux_sizes B hB _ _ _ b hb
  · intro g hg
    rw [group_tables_by_db] at hg
    obtain ⟨db, hdb, rfl⟩ := List.mem_map.mp hg
    refine ⟨mkBatchesAux_numbers B _ _ _, ?_⟩
    apply mkBatches_ne_nil
    rw [dbsInOrder_mem] at hdb
    obtain ⟨p, hp, hpd⟩ := List.mem_map.mp hdb
    intro hcontra
    have : p.2 ∈ tablesForDb rem db :=
      List.mem_map.mpr ⟨p, List.mem_filter.mpr
        ⟨hp, by show (p.1 == db) = true; rw [hpd]; exact beq_self_eq_true db⟩, rfl⟩
    rw [hcontra] at this
    simp at this
  · intro db
    constructor
    · intro hmem
      rw [group_tables_by_db] at hmem
      obtain ⟨g, hg, hgd⟩ := List.mem_map.mp hmem
      obtain ⟨db', hdb', rfl⟩ := List.mem_map.mp hg
      rw [dbsInOrder_mem] at hdb'
      obtain ⟨p, hp, hpd⟩ := List.mem_map.mp hdb'
      refine ⟨p.2, ?_⟩
      have hpdb : p = (db, p.2) := by
        rw [show db = p.1 from by rw [hpd]; exact hgd.symm]
      rw [← hpdb]
      exact hp
    · rintro ⟨t, ht⟩
      rw [group_tables_by_db]
      refine List.mem_map.mpr ⟨(db, mkBatches B (tablesForDb rem db)), ?_, rfl⟩
      refine List.mem_map.mpr ⟨db, ?_, rfl⟩
      rw [dbsInOrder_mem]
      exact List.mem_map.mpr ⟨(db, t), ht, rfl⟩

theorem claim_c4_witness :
    (1 : Nat) ≤ 2 ∧
    (remainingTables [("DB1", "T1"), ("DB1", "T2"), ("DB1", "T3")]
      (load_processed_tables [])).Nodup ∧
    (∀ p ∈ remainingTables [("DB1", "T1"), ("DB1", "T2"), ("DB1", "T3")]
        (load_processed_tables []),
      List.count p (plannedPairs (group_tables_by_db
        [("DB1", "T1"), ("DB1", "T2"), ("DB1", "T3")] [] 2)) = 1) :=
  ⟨by decide, by decide,
    (claim_c4 [("DB1", "T1"), ("DB1", "T2"), ("DB1", "T3")] [] 2
      (by decide) (by decide)).1⟩

/-! ## Claim C3 (resumability: only pending tables are queried) -/

/-- C3: if a prior run appended DoneRecords exactly for the pairs `D` read
back by `load_processed_tables`, a re-run plans batches over exactly
`P − D` (the planned pairs equal, as a multiset, the `param.csv` rows whose
pair is not done) and every backend query the re-run issues carries only
tables of `P − D`: each queried `(db, table)` pair is a `param.csv` row and
is not a done pair — no done table is ever queried again. -/
theorem claim_c3 (param : List (String × String)) (doneRows : List DoneRecord)
    (B : Nat) (hB : 1 ≤ B) (oracle : Oracle) (stmts : List String)
    (s e : Nat) (files0 : String → List Block) :
    (∀ p, List.count p (plannedPairs (group_tables_by_db param doneRows B)) =
      List.count p (remainingTables param (load_processed_tables doneRows))) ∧
    (∀ c ∈ (process_database_batches oracle (group_tables_by_db param doneRows B)
        stmts s e files0).calls,
      ∀ t ∈ c.tables, (c.db, t) ∈ param ∧
        (c.db, t) ∉ load_processed_tables doneRows) := by
  refine ⟨plannedPairs_count param doneRows B hB, ?_⟩
  intro c hc t ht
  obtain ⟨_, _, hcalls⟩ := process_database_batches_spec oracle
    (group_tables_by_db param doneRows B) stmts s e files0
  rw [hcalls] at hc
  obtain ⟨stmt, _, hc2⟩ := List.mem_flatMap.mp hc
  rw [stmtCallLog] at hc2
  obtain ⟨g, hg, hc3⟩ := List.mem_flatMap.mp hc2
  obtain ⟨b, hb, hc4⟩ := List.mem_flatMap.mp hc3
  obtain ⟨hdb, htab, _⟩ := scanCalls_shape oracle stmt g.1 b.tables _ c hc4
  have hplanned : (c.db, t) ∈ plannedPairs (group_tables_by_db param doneRows B) := by
    rw [plannedPairs]
    refine List.mem_flatMap.mpr ⟨g, hg, ?_⟩
    rw [hdb]
    refine List.mem_map.mpr ⟨t, ?_, rfl⟩
    refine List.mem_flatMap.mpr ⟨b, hb, ?_⟩
    rw [← htab]
    exact ht
  have := (plannedPairs_mem param doneRows B hB (c.db, t)).mp hplanned
  rw [remainingTables, List.mem_filter] at this
  refine ⟨this.1, fun hcontra => ?_⟩
  have h2 := this.2
  have hcontains : (load_processed_tables doneRows).contains (c.db, t) = true :=
    List.elem_iff.mpr hcontra
  rw [hcontains] at h2
  simp at h2

theorem claim_c3_witness :
    (mkCall "DB1" ["T2"] "Insert" (0, 1) ∈
      (process_database_batches (fun _ => FetchResult.ok 0)
        (group_tables_by_db [("DB1", "T1"), ("DB1", "T2")]
          [{ target_db := "DB1", target_table := "T1", batch_number := 1,
             batch_size := 2 }] 100)
        ["Insert"] 0 1 (fun _ => [])).calls) ∧
    (("DB1", "T2") ∈ [("DB1", "T1"), ("DB1", "T2")] ∧
      ("DB1", "T2") ∉ load_processed_tables
        [{ target_db := "DB1", target_table := "T1", batch_number := 1,
           batch_size := 2 }]) :=
  ⟨by decide,
    (claim_c3 [("DB1", "T1"), ("DB1", "T2")]
      [{ target_db := "DB1", target_table := "T1", batch_number := 1,
         batch_size := 2 }] 100 (by decide) (fun _ => FetchResult.ok 0)
      ["Insert"] 0 1 (fun _ => [])).2
      (mkCall "DB1" ["T2"] "Insert" (0, 1)) (by decide) "T2" (by decide)⟩

/-! ## Claim C1 (what a SKIP-classified error does to done.csv) -/

/-- C1 is false as stated: with a backend oracle that classifies the (only)
date window of a batch as SKIP (spool error -2646 or max-row-count error
-3149, `fetch_batch` returns `None`), `process_batch_for_stmt` `break`s out
of its window loop and then falls through to its success return, so the
batch IS reported successful and `update_done_csv` IS called: a DoneRecord
for the batch's table is appended to done.csv. -/
theorem claim_c1_counterexample :
    (fun _ => FetchResult.skip : Oracle)
      (mkCall "DB1" ["T1"] "Insert" (0, 1)) = FetchResult.skip ∧
    (process_batch_for_stmt (fun _ => FetchResult.skip) "Insert" "DB1"
      { batch_number := 1, tables := ["T1"], batch_size := 1 }
      0 1 true [] []).success = true ∧
    (process_database_batches (fun _ => FetchResult.skip)
      [("DB1", [{ batch_number := 1, tables := ["T1"], batch_size := 1 }])]
      ["Insert"] 0 1 (fun _ => [])).done =
      [{ target_db := "DB1", target_table := "T1", batch_number := 1,
         batch_size := 1 }] := by
  exact ⟨rfl, rfl, rfl⟩

/-- C1 (amended): if `fetch_batch` classifies a backend error for a date
window of a batch as SKIP (and every earlier window of that batch returned
rows),
the batch's remaining windows are abandoned, but — contrary to the original
claim — the batch IS reported successful (`(True, None)`), it is NOT added
to the failed-batch list, and `update_done_csv` IS called for it: a
DoneRecord is appended for every table of the batch, so those tables are
counted as done and are not retried on the next run.  The other batches of
the run are unaffected: the run's done.csv rows and failed batches are the
concatenation of per-batch contributions, each depending only on that
batch's own query outcomes. -/
theorem claim_c1 (oracle : Oracle) (plan : List (String × List BatchInfo))
    (stmts : List String) (s e : Nat) (files0 : String → List Block)
    (stmt db : String) (bs : List BatchInfo) (b : BatchInfo)
    (ws₁ : List (Nat × Nat)) (w : Nat × Nat) (ws₂ : List (Nat × Nat))
    (hstmt : stmt ∈ stmts) (hg : (db, bs) ∈ plan) (hb : b ∈ bs)
    (hsplit : generate_30d_batches s e = ws₁ ++ w :: ws₂)
    (hok : ∀ w' ∈ ws₁, ∃ n, oracle (mkCall db b.tables stmt w') = .ok n)
    (hskip : oracle (mkCall db b.tables stmt w) = .skip) :
    batchOutcome oracle stmt db b s e = (true, none) ∧
    batchContribFailed oracle stmt db b s e = [] ∧
    (∀ t ∈ b.tables,
      ({ target_db := db, target_table := t, batch_number := b.batch_number,
         batch_size := b.batch_size } : DoneRecord) ∈
        (process_database_batches oracle plan stmts s e files0).done) ∧
    batchCallLog oracle stmt db b s e =
      (ws₁ ++ [w]).map (mkCall db b.tables stmt) ∧
    (process_database_batches oracle plan stmts s e files0).done =
      stmts.flatMap (fun st => stmtContribDone oracle plan st s e) ∧
    (process_database_batches oracle plan stmts s e files0).failed =
      stmts.flatMap (fun st => stmtContribFailed oracle plan st s e) := by
  obtain ⟨hscan, hcalls⟩ := scanWindows_skip oracle stmt db b.tables ws₁ w ws₂ hok hskip
  have houtcome : batchOutcome oracle stmt db b s e = (true, none) := by
    rw [batchOutcome, hsplit]
    exact hscan
  obtain ⟨hdone, hfailed, _⟩ :=
    process_database_batches_spec oracle plan stmts s e files0
  refine ⟨houtcome, ?_, ?_, ?_, hdone, hfailed⟩
  · rw [batchContribFailed, houtcome]
    simp
  · intro t ht
    rw [hdone]
    refine List.mem_flatMap.mpr ⟨stmt, hstmt, ?_⟩
    rw [stmtContribDone]
    refine List.mem_flatMap.mpr ⟨(db, bs), hg, ?_⟩
    refine List.mem_flatMap.mpr ⟨b, hb, ?_⟩
    rw [batchContribDone, houtcome]
    simp only [if_pos rfl]
    exact List.mem_map.mpr ⟨t, ht, rfl⟩
  · rw [batchCallLog, hsplit]
    exact hcalls

theorem claim_c1_witness :
    generate_30d_batches 0 1 = [] ++ (0, 1) :: [] ∧
    ({ target_db := "DB1", target_table := "T1", batch_number := 1,
       batch_size := 1 } : DoneRecord) ∈
      (process_database_batches (fun _ => FetchResult.skip)
        [("DB1", [{ batch_number := 1, tables := ["T1"], batch_size := 1 }])]
        ["Insert"] 0 1 (fun _ => [])).done :=
  ⟨by decide,
    (claim_c1 (fun _ => FetchResult.skip)
      [("DB1", [{ batch_number := 1, tables := ["T1"], batch_size := 1 }])]
      ["Insert"] 0 1 (fun _ => []) "Insert" "DB1"
      [{ batch_number := 1, tables := ["T1"], batch_size := 1 }]
      { batch_number := 1, tables := ["T1"], batch_size := 1 }
      [] (0, 1) [] (by decide) (by decide) (by decide) (by decide)
      (by intro w' hw'; simp at hw') rfl).2.2.1 "T1" (by decide)⟩

/-! ## Claim C8 (non-SKIP backend errors are fatal only for their batch) -/

/-- C8: when `fetch_batch` raises a backend error other than the spool
(-2646) and row-count (-3149) resource errors (and every earlier window of
the batch returned rows), the exception is FATAL only for that batch: the
window loop stops at the failing window (no later window of the batch is
queried), the batch is appended to the failed-batch list together with its
error message and statement type, it contributes no DoneRecord, and the run
goes on: done.csv rows and failed batches of the whole run are exactly the
concatenation of the per-batch contributions of every batch of every
database and statement type, each depending only on that batch's own query
outcomes. -/
theorem claim_c8 (oracle : Oracle) (plan : List (String × List BatchInfo))
    (stmts : List String) (s e : Nat) (files0 : String → List Block)
    (stmt db : String) (bs : List BatchInfo) (b : BatchInfo)
    (ws₁ : List (Nat × Nat)) (w : Nat × Nat) (ws₂ : List (Nat × Nat))
    (m : String)
    (hstmt : stmt ∈ stmts) (hg : (db, bs) ∈ plan) (hb : b ∈ bs)
    (hsplit : generate_30d_batches s e = ws₁ ++ w :: ws₂)
    (hok : ∀ w' ∈ ws₁, ∃ n, oracle (mkCall db b.tables stmt w') = .ok n)
    (hfatal : oracle (mkCall db b.tables stmt w) = .fatal m) :
    batchOutcome oracle stmt db b s e = (false, some m) ∧
    batchContribDone oracle stmt db b s e = [] ∧
    ({ db := db, batch := b.batch_number, tables := b.tables, error := m,
       statement := stmt } : FailedBatch) ∈
      (process_database_batches oracle plan stmts s e files0).failed ∧
    batchCallLog oracle stmt db b s e =
      (ws₁ ++ [w]).map (mkCall db b.tables stmt) ∧
    (process_database_batches oracle plan stmts s e files0).done =
      stmts.flatMap (fun st => stmtContribDone oracle plan st s e) ∧
    (process_database_batches oracle plan stmts s e files0).failed =
      stmts.flatMap (fun st => stmtContribFailed oracle plan st s e) := by
  obtain ⟨hscan, hcalls⟩ :=
    scanWindows_fatal oracle stmt db b.tables m ws₁ w ws₂ hok hfatal
  have houtcome : batchOutcome oracle stmt db b s e = (false, some m) := by
    rw [batchOutcome, hsplit]
    exact hscan
  obtain ⟨hdone, hfailed, _⟩ :=
    process_database_batches_spec oracle plan stmts s e files0
  refine ⟨houtcome, ?_, ?_, ?_, hdone, hfailed⟩
  · rw [batchContribDone, houtcome]
    simp
  · rw [hfailed]
    refine List.mem_flatMap.mpr ⟨stmt, hstmt, ?_⟩
    rw [stmtContribFailed]
    refine List.mem_flatMap.mpr ⟨(db, bs), hg, ?_⟩
    refine List.mem_flatMap.mpr ⟨b, hb, ?_⟩
    rw [batchContribFailed, houtcome]
    simp
  · rw [batchCallLog, hsplit]
    exact hcalls

theorem claim_c8_witness :
    generate_30d_batches 0 1 = [] ++ (0, 1) :: [] ∧
    ({ db := "DB1", batch := 1, tables := ["T1"], error := "3807 object missing",
       statement := "Insert" } : FailedBatch) ∈
      (process_database_batches (fun _ => FetchResult.fatal "3807 object missing")
        [("DB1", [{ batch_number := 1, tables := ["T1"], batch_size := 1 }])]
        ["Insert"] 0 1 (fun _ => [])).failed :=
  ⟨by decide,
    (claim_c8 (fun _ => FetchResult.fatal "3807 object missing")
      [("DB1", [{ batch_number := 1, tables := ["T1"], batch_size := 1 }])]
      ["Insert"] 0 1 (fun _ => []) "Insert" "DB1"
      [{ batch_number := 1, tables := ["T1"], batch_size := 1 }]
      { batch_number := 1, tables := ["T1"], batch_size := 1 }
      [] (0, 1) [] "3807 object missing" (by decide) (by decide) (by decide)
      (by decide) (by intro w' hw'; simp at hw') rfl).2.2.1⟩

/-! ## Claim C9 (header discipline of the per-statement-type output files) -/

/-- C9: for each statement type, every extraction write of a run appends to
the single file `{stmt}_queries.csv` (modelled as the per-statement block
list), and a header row is written at most once over the life of that file:
starting from no files, after any sequence of runs each file is either still
absent or consists of one first block carrying the header followed only by
headerless blocks — the header can only have been written by the first write
of a run that found the file absent; moreover any single run that starts
with the file already present (e.g. a resumed run) appends only headerless
blocks to it. -/
theorem claim_c9 :
    (∀ (runs : List RunSpec) (f : String),
      foldRuns runs (fun _ => []) f = [] ∨
      ∃ b rest, foldRuns runs (fun _ => []) f = b :: rest ∧
        b.header = true ∧ ∀ x ∈ rest, x.header = false) ∧
    (∀ (oracle : Oracle) (plan : List (String × List BatchInfo))
       (stmts : List String) (s e : Nat) (files0 : String → List Block)
       (f : String),
      (∀ f2, headerShape (files0 f2)) → files0 f ≠ [] →
      ∃ new, (process_database_batches oracle plan stmts s e files0).files f =
        files0 f ++ new ∧ ∀ x ∈ new, x.header = false) := by
  constructor
  · intro runs f
    have hshape : headerShape (foldRuns runs (fun _ => []) f) :=
      foldRuns_shape runs (fun _ => []) (fun _ => trivial) f
    cases hlist : foldRuns runs (fun _ => []) f with
    | nil => exact Or.inl rfl
    | cons b rest =>
      rw [hlist] at hshape
      exact Or.inr ⟨b, rest, rfl, hshape.1, hshape.2⟩
  · intro oracle plan stmts s e files0 f hshape hne
    obtain ⟨new, h1, h2⟩ :=
      (process_database_batches_files oracle plan stmts s e files0 hshape).2 f
    exact ⟨new, h1, h2 hne⟩

theorem claim_c9_witness :
    ((fun _ => [{ header := true, rows := 5 }]) "Insert" : List Block) ≠ [] ∧
    ∃ new, (process_database_batches (fun _ => FetchResult.ok 2)
        [("DB1", [{ batch_number := 1, tables := ["T1"], batch_size := 1 }])]
        ["Insert"] 0 1 (fun _ => [{ header := true, rows := 5 }])).files "Insert" =
      (fun _ => [{ header := true, rows := 5 }] : String → List Block) "Insert" ++ new ∧
      ∀ x ∈ new, x.header = false :=
  ⟨by decide,
    claim_c9.2 (fun _ => FetchResult.ok 2)
      [("DB1", [{ batch_number := 1, tables := ["T1"], batch_size := 1 }])]
      ["Insert"] 0 1 (fun _ => [{ header := true, rows := 5 }]) "Insert"
      (fun _ => ⟨rfl, by simp⟩) (by simp)⟩

/-! ## Claim C2 (the next-level frontier) -/

/-- C2 is false as stated: `setup_level_directory` subtracts only the
**previous** level's input, not every earlier level's.  Concretely, with
level-1 input `{(A,t1)}` and level-1 output discovering `{(B,t2)}`, level 2's
input is `{(B,t2)}`; if level 2's output then rediscovers `{(A,t1)}`, the
frontier computed for level 3 is `{(A,t1)}` — a pair that was an input at
level 1 ≤ 2, which the claim says can never be in a later frontier. -/
theorem claim_c2_counterexample :
    setup_level_directory_new_input [("B", "t2")] [("A", "t1")] = [("B", "t2")] ∧
    setup_level_directory_new_input [("A", "t1")]
      (setup_level_directory_new_input [("B", "t2")] [("A", "t1")]) =
      [("A", "t1")] ∧
    ("A", "t1") ∈ ([("A", "t1")] : List (String × String)) := by
  decide

/-- C2 (amended): for every level `n ≥ 1`, the input frontier computed for
level `n+1` by `setup_level_directory` equals the set of distinct
`(target_db, target_table)` pairs of level `n`'s final output minus the
pairs that were level `n`'s input frontier **only**: a pair belongs to the
new frontier iff it occurs as a target pair of the previous output and is
not a pair of the previous input; the frontier has no duplicates.  A pair
that was an input at some level `< n` but not at level `n` can therefore
re-enter the frontier. -/
theorem claim_c2 (prevOutputTargets prevInput : List (String × String)) :
    (∀ p, p ∈ setup_level_directory_new_input prevOutputTargets prevInput ↔
      (p ∈ prevOutputTargets ∧ p ∉ prevInput)) ∧
    (setup_level_directory_new_input prevOutputTargets prevInput).Nodup := by
  constructor
  · intro p
    rw [setup_level_directory_new_input, List.mem_filter, dedupFirst_mem]
    constructor
    · rintro ⟨h1, h2⟩
      refine ⟨h1, fun hc => ?_⟩
      have : prevInput.contains p = true := List.elem_iff.mpr hc
      rw [this] at h2
      simp at h2
    · rintro ⟨h1, h2⟩
      refine ⟨h1, ?_⟩
      cases hcont : prevInput.contains p
      · simp
      · exact absurd (List.elem_iff.mp hcont) h2
  · exact List.Nodup.filter _ (dedupFirst_nodup prevOutputTargets)

theorem claim_c2_witness :
    ("B", "t2") ∈ setup_level_directory_new_input [("B", "t2")] [("A", "t1")] :=
  ((claim_c2 [("B", "t2")] [("A", "t1")]).1 ("B", "t2")).mpr (by decide)

/-! ## Claim C7 (the global mapping cache's reader) -/

/-- C7 is false as stated: when `map_table_to_db` loads the global mapping
file, a table with several recorded entries resolves to the **first** entry's
value, whatever it is — not to the first non-"Unknown" value.  With file
entries `(t, Unknown)` then `(t, X)`, the loaded dictionary answers
"Unknown" although the spec's reader rule answers "X". -/
theorem claim_c7_counterexample :
    lookupTable (loadMappings [("t", "Unknown"), ("t", "X")] []) "t" =
      some "Unknown" ∧
    specFirstNonUnknown [("t", "Unknown"), ("t", "X")] "t" = some "X" ∧
    (some "Unknown" : Option String) ≠ some "X" := by
  refine ⟨rfl, rfl, by decide⟩

/-- C7 (amended): when `map_table_to_db` loads the global mapping file,
a table that has several recorded entries resolves to the **first** recorded
value among them, whether or not it is "Unknown" (so in particular, after
`record(table, "X")`, a later `record(table, "Unknown")` never changes the
database a reader obtains for that table — appended entries never override
the first one); and a table already present in the loaded mappings is
excluded from `tables_needing_lookup` and so never triggers a new backend
lookup. -/
theorem claim_c7 (entries more : List (String × String)) (t v : String)
    (m : List (String × String)) (tables : List String) :
    lookupTable (loadMappings entries []) t =
      ((entries.find? (fun x => x.1 == t)).map (fun x => x.2)) ∧
    (lookupTable (loadMappings entries []) t = some v →
      lookupTable (loadMappings (entries ++ more) []) t = some v) ∧
    ((lookupTable m t).isSome → t ∉ tablesNeedingLookup tables m) := by
  have h1 : ∀ es : List (String × String),
      lookupTable (loadMappings es []) t =
        ((es.find? (fun x => x.1 == t)).map (fun x => x.2)) := by
    intro es
    rw [lookupTable, loadMappings_lookup]
    simp [List.lookup]
  refine ⟨h1 entries, ?_, fun hs => tablesNeedingLookup_not_mem tables m t hs⟩
  intro hv
  rw [h1 (entries ++ more), List.find?_append]
  rw [h1 entries] at hv
  cases hfind : entries.find? (fun x => x.1 == t) with
  | none => rw [hfind] at hv; simp at hv
  | some p =>
    rw [hfind] at hv
    simpa using hv

theorem claim_c7_witness :
    lookupTable (loadMappings ([("t", "A")] ++ [("t", "Unknown")]) []) "t" =
      some "A" :=
  (claim_c7 [("t", "A")] [("t", "Unknown")] "t" "A" [] []).2.1 (by decide)

end TDLineage
